import Mathlib

/-!
Shallow embedding of the mlir-tv symbolic encoder (src/encode.cpp) and the
interfaces it consumes.  SMT terms (the Expr algebra of smt.cpp, which is not
part of the sources) are modelled as a deep AST with a partial evaluation
semantics for the quantifier-free fragment; symbolic values, tensors, memrefs
and the encoder state follow the data model of the specification.
-/

namespace MLIRTV

/-- Index::BITS, the width of index-sorted bit-vectors (the implementation
chooses 32). -/
def IndexBITS : Nat := 32

/-- Modelled from the spec: the abstract SMT term algebra ("Expr") of the smt
wrapper, which is not under src/.  Constants, BV arithmetic, comparisons,
boolean connectives, ite, forall, lambda, array select/store, an abstract
1-D-array summation, and abstract float operations. -/
inductive Expr where
  | bv (w : Nat) (v : Nat)
  | boolE (b : Bool)
  | var (id : Nat) (w : Nat)
  | add (a b : Expr)
  | sub (a b : Expr)
  | mul (a b : Expr)
  | udiv (a b : Expr)
  | umod (a b : Expr)
  | ult (a b : Expr)
  | ule (a b : Expr)
  | eqE (a b : Expr)
  | isZeroE (a : Expr)
  | andE (a b : Expr)
  | orE (a b : Expr)
  | notE (a : Expr)
  | impliesE (a b : Expr)
  | iteE (c a b : Expr)
  | forallE (vars : List Nat) (body : Expr)
  | lamE (v : Nat) (body : Expr)
  | selectE (arr idx : Expr)
  | storeE (arr idx val : Expr)
  | sumArr (arr size : Expr)
  | fadd (a b : Expr)
  | fmul (a b : Expr)
  | fneg (a : Expr)
  | fabsE (a : Expr)
  | fult (a b : Expr)
  | fconst (bits : Nat) (prec : Nat)
deriving DecidableEq, Repr

/-- Semantic values of the quantifier-free fragment: bit-vectors and booleans.
Float terms are abstract; an environment interprets them into this domain. -/
inductive Val where
  | vbv (w : Nat) (v : Nat)
  | vb (b : Bool)
deriving DecidableEq, Repr

/-- A valuation: values for BV variables and an interpretation of the abstract
float operations (floats have no bit-level semantics in the encoder). -/
structure Env where
  iv : Nat → Nat
  efadd : Val → Val → Val
  efmul : Val → Val → Val
  efneg : Val → Val
  efabs : Val → Val
  efult : Val → Val → Bool
  efconst : Nat → Nat → Val

/-- Evaluation of the quantifier-free fragment; quantifiers, lambdas and array
operations evaluate to none (the encoder treats them only symbolically). -/
def Expr.eval (env : Env) : Expr → Option Val
  | .bv w v => some (.vbv w (v % 2 ^ w))
  | .boolE b => some (.vb b)
  | .var id w => some (.vbv w (env.iv id % 2 ^ w))
  | .add a b =>
    match a.eval env, b.eval env with
    | some (.vbv w1 v1), some (.vbv w2 v2) =>
      if w1 = w2 then some (.vbv w1 ((v1 + v2) % 2 ^ w1)) else none
    | _, _ => none
  | .sub a b =>
    match a.eval env, b.eval env with
    | some (.vbv w1 v1), some (.vbv w2 v2) =>
      if w1 = w2 then some (.vbv w1 ((v1 + (2 ^ w1 - v2)) % 2 ^ w1)) else none
    | _, _ => none
  | .mul a b =>
    match a.eval env, b.eval env with
    | some (.vbv w1 v1), some (.vbv w2 v2) =>
      if w1 = w2 then some (.vbv w1 ((v1 * v2) % 2 ^ w1)) else none
    | _, _ => none
  | .udiv a b =>
    match a.eval env, b.eval env with
    | some (.vbv w1 v1), some (.vbv w2 v2) =>
      if w1 = w2 then
        some (.vbv w1 (if v2 = 0 then 2 ^ w1 - 1 else v1 / v2))
      else none
    | _, _ => none
  | .umod a b =>
    match a.eval env, b.eval env with
    | some (.vbv w1 v1), some (.vbv w2 v2) =>
      if w1 = w2 then some (.vbv w1 (if v2 = 0 then v1 else v1 % v2)) else none
    | _, _ => none
  | .ult a b =>
    match a.eval env, b.eval env with
    | some (.vbv w1 v1), some (.vbv w2 v2) =>
      if w1 = w2 then some (.vb (decide (v1 < v2))) else none
    | _, _ => none
  | .ule a b =>
    match a.eval env, b.eval env with
    | some (.vbv w1 v1), some (.vbv w2 v2) =>
      if w1 = w2 then some (.vb (decide (v1 ≤ v2))) else none
    | _, _ => none
  | .eqE a b =>
    match a.eval env, b.eval env with
    | some (.vbv w1 v1), some (.vbv w2 v2) =>
      if w1 = w2 then some (.vb (decide (v1 = v2))) else none
    | some (.vb b1), some (.vb b2) => some (.vb (b1 == b2))
    | _, _ => none
  | .isZeroE a =>
    match a.eval env with
    | some (.vbv _ v) => some (.vb (decide (v = 0)))
    | _ => none
  | .andE a b =>
    match a.eval env, b.eval env with
    | some (.vb b1), some (.vb b2) => some (.vb (b1 && b2))
    | _, _ => none
  | .orE a b =>
    match a.eval env, b.eval env with
    | some (.vb b1), some (.vb b2) => some (.vb (b1 || b2))
    | _, _ => none
  | .notE a =>
    match a.eval env with
    | some (.vb b1) => some (.vb (!b1))
    | _ => none
  | .impliesE a b =>
    match a.eval env, b.eval env with
    | some (.vb b1), some (.vb b2) => some (.vb (!b1 || b2))
    | _, _ => none
  | .iteE c a b =>
    match c.eval env with
    | some (.vb true) => a.eval env
    | some (.vb false) => b.eval env
    | _ => none
  | .forallE _ _ => none
  | .lamE _ _ => none
  | .selectE _ _ => none
  | .storeE _ _ _ => none
  | .sumArr _ _ => none
  | .fadd a b =>
    match a.eval env, b.eval env with
    | some v1, some v2 => some (env.efadd v1 v2)
    | _, _ => none
  | .fmul a b =>
    match a.eval env, b.eval env with
    | some v1, some v2 => some (env.efmul v1 v2)
    | _, _ => none
  | .fneg a =>
    match a.eval env with
    | some v1 => some (env.efneg v1)
    | _ => none
  | .fabsE a =>
    match a.eval env with
    | some v1 => some (env.efabs v1)
    | _ => none
  | .fult a b =>
    match a.eval env, b.eval env with
    | some v1, some v2 => some (.vb (env.efult v1 v2))
    | _, _ => none
  | .fconst bits prec => some (env.efconst bits prec)

/-- Capture-avoiding substitution of variables (images are closed terms in all
uses by the encoder, so shadowing removal suffices). -/
def Expr.subst (sigma : Nat → Option Expr) : Expr → Expr
  | .bv w v => .bv w v
  | .boolE b => .boolE b
  | .var id w => match sigma id with | some e => e | none => .var id w
  | .add a b => .add (a.subst sigma) (b.subst sigma)
  | .sub a b => .sub (a.subst sigma) (b.subst sigma)
  | .mul a b => .mul (a.subst sigma) (b.subst sigma)
  | .udiv a b => .udiv (a.subst sigma) (b.subst sigma)
  | .umod a b => .umod (a.subst sigma) (b.subst sigma)
  | .ult a b => .ult (a.subst sigma) (b.subst sigma)
  | .ule a b => .ule (a.subst sigma) (b.subst sigma)
  | .eqE a b => .eqE (a.subst sigma) (b.subst sigma)
  | .isZeroE a => .isZeroE (a.subst sigma)
  | .andE a b => .andE (a.subst sigma) (b.subst sigma)
  | .orE a b => .orE (a.subst sigma) (b.subst sigma)
  | .notE a => .notE (a.subst sigma)
  | .impliesE a b => .impliesE (a.subst sigma) (b.subst sigma)
  | .iteE c a b => .iteE (c.subst sigma) (a.subst sigma) (b.subst sigma)
  | .forallE vs body =>
    .forallE vs (body.subst (fun id => if vs.contains id then none else sigma id))
  | .lamE v body =>
    .lamE v (body.subst (fun id => if id = v then none else sigma id))
  | .selectE a i => .selectE (a.subst sigma) (i.subst sigma)
  | .storeE a i x => .storeE (a.subst sigma) (i.subst sigma) (x.subst sigma)
  | .sumArr a n => .sumArr (a.subst sigma) (n.subst sigma)
  | .fadd a b => .fadd (a.subst sigma) (b.subst sigma)
  | .fmul a b => .fmul (a.subst sigma) (b.subst sigma)
  | .fneg a => .fneg (a.subst sigma)
  | .fabsE a => .fabsE (a.subst sigma)
  | .fult a b => .fult (a.subst sigma) (b.subst sigma)
  | .fconst bits prec => .fconst bits prec

/-- Simultaneous substitution binding the given variable ids to the given
expressions (first binding wins). -/
def mkSubst (vars : List Nat) (vals : List Expr) : Nat → Option Expr :=
  fun id => (vars.zip vals).lookup id

/-- An index-sorted variable. -/
def indexVar (id : Nat) : Expr := Expr.var id IndexBITS

/-- Index::boundIndexVars: n fresh index variables starting at the given
fresh-counter base. -/
def boundIndexVars (base n : Nat) : List Expr :=
  (List.range n).map (fun i => indexVar (base + i))

/-- The variable ids of a list of variable expressions. -/
def varIds (vs : List Expr) : List Nat :=
  vs.filterMap (fun e => match e with | .var id _ => some id | _ => none)

/-- Expr::mkForall over a list of (variable) exprs. -/
def Expr.mkForall (vars : List Expr) (body : Expr) : Expr :=
  .forallE (varIds vars) body

/-- Syntactic sort width of a BV term (Expr::bitwidth of the smt wrapper). -/
def Expr.bitwidthE : Expr → Nat
  | .bv w _ => w
  | .var _ w => w
  | .add a _ => a.bitwidthE
  | .sub a _ => a.bitwidthE
  | .mul a _ => a.bitwidthE
  | .udiv a _ => a.bitwidthE
  | .umod a _ => a.bitwidthE
  | .iteE _ a _ => a.bitwidthE
  | _ => IndexBITS

/-- Index(n): an index-typed constant. -/
def IndexC (n : Nat) : Expr := Expr.bv IndexBITS n

/-- Index::zero(). -/
def IndexZero : Expr := IndexC 0

/-- Expr.ofs(i): add a (possibly negative) constant, two's-complement encoded. -/
def Expr.ofs (e : Expr) (i : Int) : Expr :=
  Expr.add e (Expr.bv IndexBITS ((i % ((2 : Int) ^ IndexBITS)).toNat))

/-- Expr::isNonZero of the smt wrapper (modelled from the spec). -/
def Expr.isNonZero (e : Expr) : Expr := Expr.notE (Expr.isZeroE e)

/-- listsEqual of utils.h: the conjunction of element-wise equalities
(accumulated onto true, mirroring the conjunctive accumulation idiom). -/
def listsEqual (a b : List Expr) : Expr :=
  if a.length = b.length then
    (List.zipWith Expr.eqE a b).foldl Expr.andE (Expr.boolE true)
  else Expr.boolE false

/-- vecAddElem of encode.cpp. -/
def vecAddElem (a : List Expr) (b : Expr) : List Expr :=
  a.map (fun x => Expr.add x b)

/-- addOne of encode.cpp. -/
def addOne (vec : List Expr) : List Expr :=
  match vec with
  | [] => []
  | v0 :: _ => vecAddElem vec (Expr.bv v0.bitwidthE 1)

/-- vecAdd of encode.cpp (callers guarantee equal lengths). -/
def vecAdd (a b : List Expr) : List Expr := List.zipWith Expr.add a b

/-- smt::get1DSize: the product of the dimensions (row-major element count). -/
def get1DSize (dims : List Expr) : Expr :=
  dims.foldl Expr.mul (IndexC 1)

/-- makeCube of utils. -/
def makeCube (e : Expr) (n : Nat) : List Expr := List.replicate n e

/-- MLIR types as consumed by the encoder; a dynamic dimension is none.
For memrefs, identLayout records whether the layout map is the identity. -/
inductive MLIRTy where
  | index
  | f32
  | f64
  | f16
  | int (w : Nat)
  | tensorT (shape : List (Option Nat)) (elem : MLIRTy)
  | memrefT (shape : List (Option Nat)) (elem : MLIRTy) (identLayout : Bool)
deriving DecidableEq, Repr

def MLIRTy.isFloatTy : MLIRTy → Bool
  | .f32 | .f64 | .f16 => true
  | _ => false

def MLIRTy.isTensorTy : MLIRTy → Bool
  | .tensorT _ _ => true
  | _ => false

def MLIRTy.isMemRefTy : MLIRTy → Bool
  | .memrefT _ _ _ => true
  | _ => false

/-- Rank of a shaped type (0 for scalars, matching LinalgOp::getRank on
non-shaped operands). -/
def MLIRTy.rank : MLIRTy → Nat
  | .tensorT s _ => s.length
  | .memrefT s _ _ => s.length
  | _ => 0

/-- Type::isSignlessIntOrFloat (index is neither). -/
def MLIRTy.isSignlessIntOrFloat : MLIRTy → Bool
  | .int _ => true
  | .f32 | .f64 | .f16 => true
  | _ => false

def MLIRTy.getElemTyOf : MLIRTy → MLIRTy
  | .tensorT _ e => e
  | .memrefT _ e _ => e
  | t => t

/-- Modelled from the spec: a Tensor is a lambda-backed total function from an
index tuple to an element Expr, together with its element type and dimension
list (value.cpp is not under src/). -/
structure Tensor where
  elemTy : MLIRTy
  dims : List Expr
  vars : List Expr
  body : Expr
deriving DecidableEq, Repr

/-- Tensor::mkLambda. -/
def Tensor.mkLambda (elemTy : MLIRTy) (dims : List Expr) (vars : List Expr)
    (body : Expr) : Tensor :=
  ⟨elemTy, dims, vars, body⟩

def Tensor.getDim (t : Tensor) (i : Nat) : Expr := t.dims.getD i (IndexC 0)

/-- Modelled from the spec: the in-bounds predicate witnessing the valid
region of a tensor. -/
def inBoundsPred (idxs dims : List Expr) : Expr :=
  (List.zipWith Expr.ult idxs dims).foldl Expr.andE (Expr.boolE true)

/-- Modelled from the spec: Tensor::get returns the element Expr (the lambda
body at the given indices) and the in-bounds predicate. -/
def Tensor.get (t : Tensor) (idxs : List Expr) : Expr × Expr :=
  (t.body.subst (mkSubst (varIds t.vars) idxs), inBoundsPred idxs t.dims)

def Tensor.isInBounds (t : Tensor) (idxs : List Expr) : Expr :=
  inBoundsPred idxs t.dims

def Tensor.get1DSizeT (t : Tensor) : Expr := get1DSize t.dims

/-- Row-major delinearization of a flat index over the given dimensions. -/
def rowMajorIdx (dims : List Expr) (i : Expr) : List Expr :=
  (List.range dims.length).map (fun k =>
    Expr.umod (Expr.udiv i ((dims.drop (k + 1)).foldl Expr.mul (IndexC 1)))
      (dims.getD k (IndexC 1)))

/-- Modelled from the spec: Tensor::asArray flattens the tensor to a 1-D
symbolic array in row-major order (here as a lambda over a fresh index). -/
def Tensor.asArray (t : Tensor) (freshId : Nat) : Expr :=
  Expr.lamE freshId
    (t.body.subst (mkSubst (varIds t.vars) (rowMajorIdx t.dims (indexVar freshId))))

/-- Modelled from the spec: Tensor::sum, the scalar reduction of all elements. -/
def Tensor.sum (t : Tensor) (freshId : Nat) : Expr :=
  Expr.sumArr (t.asArray freshId) (get1DSize t.dims)

/-- A memory block: 1-D size, conditional writability, symbolic array. -/
structure MemBlock where
  numelem : Expr
  writable : Expr
  arr : Expr
deriving DecidableEq, Repr

/-- The block-addressed symbolic heap. -/
structure Memory where
  blocks : List MemBlock
deriving DecidableEq, Repr

def MemBlock.default0 : MemBlock := ⟨IndexC 0, Expr.boolE false, Expr.bv 0 0⟩

/-- Point update of one block of the heap (no-op when bid is out of range). -/
def Memory.updBlock (m : Memory) (bid : Nat) (f : MemBlock → MemBlock) :
    Memory :=
  { blocks := m.blocks.enum.map (fun p => if p.1 = bid then f p.2 else p.2) }

/-- Modelled from the spec: Memory::addLocalBlock returns a fresh block id;
the block content starts as a fresh symbolic array. -/
def Memory.addLocalBlock (m : Memory) (size : Expr) (writable : Expr)
    (freshArr : Nat) : Memory × Nat :=
  ({ blocks := m.blocks ++ [⟨size, writable, Expr.var freshArr 0⟩] },
   m.blocks.length)

/-- Modelled from the spec: Memory::setWritable lowers the writability flag of
a block (the encoder only ever lowers it to false). -/
def Memory.setWritable (m : Memory) (bid : Nat) (b : Bool) : Memory :=
  m.updBlock bid (fun blk => { blk with writable := Expr.boolE b })

/-- A MemRef value: element type, block id, offset, dims; identLayout records
whether the layout is the identity (strided layouts are not needed by the
claims encoded here beyond this flag). -/
structure MemRefV where
  elemTy : MLIRTy
  bid : Nat
  offset : Expr
  dims : List Expr
  identLayout : Bool
deriving DecidableEq, Repr

/-- Row-major linearization of an index tuple. -/
def linearIdx (dims idxs : List Expr) : Expr :=
  (dims.zip idxs).foldl (fun acc di => Expr.add (Expr.mul acc di.1) di.2) IndexZero

/-- Modelled from the spec: MemRef::get reads an element through the layout and
returns it with the in-bounds predicate (out-of-bounds access is UB). -/
def MemRefV.get (m : MemRefV) (mem : Memory) (idxs : List Expr) : Expr × Expr :=
  let blk := mem.blocks.getD m.bid MemBlock.default0
  let lin := Expr.add m.offset (linearIdx m.dims idxs)
  (Expr.selectE blk.arr lin,
   Expr.andE (inBoundsPred idxs m.dims) (Expr.ult lin blk.numelem))

/-- Modelled from the spec: MemRef::store writes an element and returns the
store-success predicate (in-bounds and the block writable). -/
def MemRefV.store (m : MemRefV) (mem : Memory) (val : Expr) (idxs : List Expr) :
    Memory × Expr :=
  let blk := mem.blocks.getD m.bid MemBlock.default0
  let lin := Expr.add m.offset (linearIdx m.dims idxs)
  let success := Expr.andE (Expr.andE (inBoundsPred idxs m.dims)
      (Expr.ult lin blk.numelem)) blk.writable
  (mem.updBlock m.bid (fun blk => { blk with arr := Expr.storeE blk.arr lin val }),
   success)

/-- Modelled from the spec: MemRef::storeArray writes a 1-D array into the
block and returns the store-success predicate; when checkWritable is false the
writability check is skipped (used for freshly created read-only blocks). -/
def MemRefV.storeArray (m : MemRefV) (mem : Memory) (arr : Expr)
    (ofs size : Expr) (checkWritable : Bool) : Memory × Expr :=
  let blk := mem.blocks.getD m.bid MemBlock.default0
  let success := Expr.andE
      (if checkWritable then blk.writable else Expr.boolE true)
      (Expr.ule (Expr.add ofs size) blk.numelem)
  (mem.updBlock m.bid (fun blk => { blk with arr := arr }),
   success)

def MemRefV.getDims (m : MemRefV) : List Expr := m.dims

/-- Tagged symbolic values held in the register file. -/
inductive ValueTy where
  | indexV (e : Expr)
  | intV (e : Expr)
  | floatV (e : Expr) (ty : MLIRTy)
  | tensorV (t : Tensor)
  | memrefV (m : MemRefV)
deriving DecidableEq, Repr

/-- The single exposed failure kind (UnsupportedException), plus a marker for
the fatal programmer-error paths (asserts, bad casts, missing registers) that
abort the process in the source. -/
inductive EncErr where
  | unsupported (msg : String)
  | crash (msg : String)
deriving DecidableEq, Repr

abbrev EncM (α : Type) := Except EncErr α

/-- A loop-induction scope frame. -/
structure LinalgGenericScope where
  indVars : List Expr
  indVarUpperBounds : List Expr
deriving DecidableEq, Repr

/-- The encoder state: register file, accumulated well-definedness conjuncts
(with op provenance), loop scopes, memory, a fresh-symbol counter, and the
solver-tactic flags. -/
structure State where
  regs : List (Nat × ValueTy)
  wdp : List (Option Nat × Expr)
  scopes : List LinalgGenericScope
  mem : Memory
  fresh : Nat
  hasQuantifier : Bool
  hasConstArray : Bool
deriving DecidableEq, Repr

/-- State::wellDefined conjoins a predicate, annotated with the op. -/
def State.wellDefined (st : State) (op : Option Nat) (pred : Expr) : State :=
  { st with wdp := st.wdp ++ [(op, pred)] }

/-- Modelled from the spec: State::isOpWellDefined is the conjunction of the
predicates recorded for the given op (state.cpp is not under src/). -/
def State.isOpWellDefined (st : State) (op : Nat) : Expr :=
  ((st.wdp.filter (fun p => p.1 == some op)).map (fun p => p.2)).foldl
    Expr.andE (Expr.boolE true)

def State.addReg (st : State) (id : Nat) (v : ValueTy) : State :=
  { st with regs := (id, v) :: st.regs }

def State.getVal (st : State) (id : Nat) : EncM ValueTy :=
  match st.regs.lookup id with
  | some v => .ok v
  | none => .error (.crash "register not found")

def State.getTensor (st : State) (id : Nat) : EncM Tensor := do
  match ← st.getVal id with
  | .tensorV t => pure t
  | _ => .error (.crash "get of Tensor: tag mismatch")

def State.getMemRef (st : State) (id : Nat) : EncM MemRefV := do
  match ← st.getVal id with
  | .memrefV m => pure m
  | _ => .error (.crash "get of MemRef: tag mismatch")

def State.getFloat (st : State) (id : Nat) : EncM (Expr × MLIRTy) := do
  match ← st.getVal id with
  | .floatV e ty => pure (e, ty)
  | _ => .error (.crash "get of Float: tag mismatch")

def State.getIndex (st : State) (id : Nat) : EncM Expr := do
  match ← st.getVal id with
  | .indexV e => pure e
  | _ => .error (.crash "get of Index: tag mismatch")

/-- RegisterFile::getExpr: the scalar Expr projection regardless of tag. -/
def State.getExpr (st : State) (id : Nat) : EncM Expr := do
  match ← st.getVal id with
  | .indexV e => pure e
  | .intV e => pure e
  | .floatV e _ => pure e
  | _ => .error (.crash "getExpr on non-scalar value")

/-- Draw n fresh index variables from the state's fresh-symbol counter. -/
def State.freshVars (st : State) (n : Nat) : List Expr × State :=
  (boundIndexVars st.fresh n, { st with fresh := st.fresh + n })

/-- An IR operand: value identity and type. -/
structure Operand where
  id : Nat
  ty : MLIRTy
deriving DecidableEq, Repr

/-- Affine expressions (the supported kinds plus a representative of the
unsupported ones, floordiv). -/
inductive AffineExpr where
  | dim (i : Nat)
  | sym (i : Nat)
  | cst (c : Int)
  | add (a b : AffineExpr)
  | mul (a b : AffineExpr)
  | floorDiv (a b : AffineExpr)
deriving DecidableEq, Repr

structure AffineMap where
  numDims : Nat
  numSyms : Nat
  results : List AffineExpr
deriving DecidableEq, Repr

/-- encodeAffineExpr of encode.cpp: total over add, mul, dim id, symbol id and
non-negative constants, none otherwise (out-of-range positions, an assert in
the source, also give none here). -/
def encodeAffineExpr (dimvars symbolvars : List Expr) :
    AffineExpr → Option Expr
  | .add a b => do
    pure (Expr.add (← encodeAffineExpr dimvars symbolvars a)
      (← encodeAffineExpr dimvars symbolvars b))
  | .mul a b => do
    pure (Expr.mul (← encodeAffineExpr dimvars symbolvars a)
      (← encodeAffineExpr dimvars symbolvars b))
  | .dim i => dimvars.get? i
  | .sym i => symbolvars.get? i
  | .cst c => if c < 0 then none else some (IndexC c.toNat)
  | .floorDiv _ _ => none

/-- AffineMap::isIdentity (modelled from the MLIR library, an external
collaborator). -/
def AffineMap.isIdentity (m : AffineMap) : Bool :=
  m.numSyms == 0 && m.results == (List.range m.numDims).map AffineExpr.dim

/-- AffineMap::isPermutation (modelled from the MLIR library): every result is
a distinct dim expression and the counts agree. -/
def AffineMap.isPermutation (m : AffineMap) : Bool :=
  m.numSyms == 0 && m.results.length == m.numDims &&
  (List.range m.numDims).all (fun i => m.results.count (AffineExpr.dim i) == 1)

/-- doMap of encode.cpp: apply a (permutation-shaped) map to a list. -/
def doMap (input : List Expr) (map : AffineMap) : List Expr :=
  if map.isIdentity then input
  else map.results.map (fun r =>
    match r with
    | .dim i => input.getD i (IndexC 0)
    | _ => IndexC 0)

/-- Symbolic Float values: an abstract term and its precision type. -/
abbrev FloatTm := Expr × MLIRTy

def FloatTm.addF (a b : FloatTm) : FloatTm := (Expr.fadd a.1 b.1, a.2)

def FloatTm.mulF (a b : FloatTm) : FloatTm := (Expr.fmul a.1 b.1, a.2)

def FloatTm.negF (a : FloatTm) : FloatTm := (Expr.fneg a.1, a.2)

def FloatTm.fultF (a b : FloatTm) : Expr := Expr.fult a.1 b.1

/-- The dimension size of a possibly-rank-0 ranked tensor type, as it is read
by broadcastTensors (getDimSize lambda); none is a dynamic size. -/
def shapeDimSize (shape : List (Option Nat)) (idx : Nat) : Option Nat :=
  if shape.length = 0 then some 1 else shape.getD idx none

/-- Modelled from the spec: Tensor::elementwiseBinOp builds the element-wise
image of the two tensor bodies (both read at the first tensor's index tuple),
carrying the first tensor's dimensions. -/
def Tensor.elementwiseBinOp (a b : Tensor) (resTy : MLIRTy)
    (f : Expr → Expr → Expr) : Tensor :=
  Tensor.mkLambda resTy a.dims a.vars (f a.body (b.get a.vars).1)

/-- The loop body of broadcastTensors over the overlapping (right-aligned)
axes; each step prepends onto the accumulated (resDims0, resDims1, outVars0,
outVars1), mirroring the insert-at-begin calls of the source. -/
def broadcastLoop (shape0 shape1 : List (Option Nat)) (t0 t1 : Tensor)
    (ty0rank ty1rank : Nat) (inVars0 inVars1 : List Expr) :
    List Nat → List Expr × List Expr × List Expr × List Expr →
    EncM (Option (List Expr × List Expr × List Expr × List Expr))
  | [], acc => pure (some acc)
  | i :: rest, (rd0, rd1, ov0, ov1) => do
    let idx0 := ty0rank - 1 - i
    let idx1 := ty1rank - 1 - i
    let izero := IndexC 0
    match shapeDimSize shape0 idx0, shapeDimSize shape1 idx1 with
    | none, some _ => pure none
    | some _, none => pure none
    | none, none =>
      broadcastLoop shape0 shape1 t0 t1 ty0rank ty1rank inVars0 inVars1 rest
        (t0.getDim idx0 :: rd0, t1.getDim idx1 :: rd1,
         inVars0.getD idx0 izero :: ov0, inVars1.getD idx1 izero :: ov1)
    | some d1, some d2 =>
      if d1 = 1 ∨ d2 = 1 ∨ d1 = d2 then
        broadcastLoop shape0 shape1 t0 t1 ty0rank ty1rank inVars0 inVars1 rest
          (IndexC (max d1 d2) :: rd0, IndexC (max d1 d2) :: rd1,
           (if d1 = 1 then izero else inVars0.getD idx0 izero) :: ov0,
           (if d2 = 1 then izero else inVars1.getD idx1 izero) :: ov1)
      else .error (.crash "broadcastTensors: assert d1 or d2 is 1 or d1 = d2")

/-- broadcastTensors of encode.cpp: NumPy broadcasting with separately
maintained per-operand dimension vectors; none when a dynamic and a static
size meet on one axis. -/
def broadcastTensors (st : State) (arg0 arg1 : Operand) :
    EncM (Option (Tensor × Tensor) × State) := do
  let (shape0, _) ← match arg0.ty with
    | .tensorT s e => pure (s, e)
    | _ => .error (.crash "cast to RankedTensorType failed")
  let (shape1, _) ← match arg1.ty with
    | .tensorT s e => pure (s, e)
    | _ => .error (.crash "cast to RankedTensorType failed")
  let t0 ← st.getTensor arg0.id
  let t1 ← st.getTensor arg1.id
  let ty0rank := max shape0.length 1
  let ty1rank := max shape1.length 1
  let resRank := max ty0rank ty1rank
  let (inVars0, st) := st.freshVars resRank
  let (inVars1, st) := st.freshVars resRank
  match ← broadcastLoop shape0 shape1 t0 t1 ty0rank ty1rank inVars0 inVars1
      (List.range (min ty0rank ty1rank)) ([], [], [], []) with
  | none => pure (none, st)
  | some (rd0, rd1, ov0, ov1) =>
    let (resDims0, resDims1, outVars0, outVars1) :=
      if ty0rank < ty1rank then
        ((List.range (ty1rank - ty0rank)).map t1.getDim ++ rd0,
         (List.range (ty1rank - ty0rank)).map t1.getDim ++ rd1,
         ov0,
         (List.range (ty1rank - ty0rank)).map
           (fun i => inVars1.getD i (IndexC 0)) ++ ov1)
      else if ty1rank < ty0rank then
        ((List.range (ty0rank - ty1rank)).map t0.getDim ++ rd0,
         (List.range (ty0rank - ty1rank)).map t0.getDim ++ rd1,
         (List.range (ty0rank - ty1rank)).map
           (fun i => inVars0.getD i (IndexC 0)) ++ ov0,
         ov1)
      else (rd0, rd1, ov0, ov1)
    let m0 := Tensor.mkLambda t0.elemTy resDims0 inVars0 (t0.get outVars0).1
    let m1 := Tensor.mkLambda t1.elemTy resDims1 inVars1 (t1.get outVars1).1
    pure (some (m0, m1), st)

def MLIRTy.isIntOrFloat : MLIRTy → Bool
  | .int _ => true
  | .f32 | .f64 | .f16 => true
  | _ => false

/-- encodeBinaryOp of encode.cpp: scalar floats dispatch to the float algebra;
ranked tensors broadcast, lift the element function, and conjoin the
shape-mismatch predicate listsEqual(dims a, dims b). -/
def encodeBinaryOp (st : State) (opId resId : Nat) (arg0 arg1 : Operand)
    (f_float : Option (FloatTm → FloatTm → FloatTm))
    (f_int : Option (Expr → Expr → Expr)) : EncM State := do
  if arg0.ty.isFloatTy then
    let a ← st.getFloat arg0.id
    let b ← st.getFloat arg1.id
    match f_float with
    | some f => pure (st.addReg resId (.floatV (f a b).1 (f a b).2))
    | none => .error (.crash "null std function invoked")
  else
    match arg0.ty with
    | .tensorT _ elemty => do
      if ¬ elemty.isIntOrFloat then
        .error (.unsupported "Unsupported element type")
      let (bts, st) ← broadcastTensors st arg0 arg1
      match bts with
      | none => .error (.unsupported "Unsupported broadcast form")
      | some (a, b) => do
        let f : Expr → Expr → EncM Expr := fun ea eb =>
          if elemty.isFloatTy then
            match f_float with
            | some ff => pure (ff (ea, elemty) (eb, elemty)).1
            | none => .error (.crash "null std function invoked")
          else match elemty with
            | .int _ =>
              match f_int with
              | some fi => pure (fi ea eb)
              | none => .error (.crash "null std function invoked")
            | _ => .error (.unsupported "Unknown value type")
        let bodyImg ← f a.body (b.get a.vars).1
        let st := st.addReg resId
          (.tensorV (Tensor.mkLambda elemty a.dims a.vars bodyImg))
        pure (st.wellDefined (some opId) (listsEqual a.dims b.dims))
    | _ => .error (.unsupported "Unsupported type")

/-- The cmpf predicate attribute: OLT is the single supported case. -/
inductive CmpFPred where
  | OLT
  | other
deriving DecidableEq, Repr

/-- encodeOp for arith::CmpFOp (the OLT case): the tensor/tensor branch maps
fult element-wise over the raw operand tensors and conjoins
listsEqual(dims a, dims b); the float/float branch is a scalar fult. -/
def encodeOp_CmpF (st : State) (opId resId : Nat) (pred : CmpFPred)
    (arg0 arg1 : Operand) (resElemTy : MLIRTy) : EncM State := do
  match pred with
  | .OLT =>
    if arg0.ty.isTensorTy ∧ arg1.ty.isTensorTy then do
      let a ← st.getTensor arg0.id
      let b ← st.getTensor arg1.id
      if ¬ (a.elemTy = b.elemTy) then
        .error (.crash "cmpf: assert equal element types")
      let elemty := a.elemTy
      if elemty.isFloatTy then do
        let res := a.elementwiseBinOp b resElemTy
          (fun ea eb => FloatTm.fultF (ea, elemty) (eb, elemty))
        let st := st.addReg resId (.tensorV res)
        pure (st.wellDefined (some opId) (listsEqual a.dims b.dims))
      else .error (.unsupported "cmpf only accepts floating-like elemtype")
    else if arg0.ty.isFloatTy ∧ arg1.ty.isFloatTy then do
      let a ← st.getFloat arg0.id
      let b ← st.getFloat arg1.id
      pure (st.addReg resId (.intV (FloatTm.fultF a b)))
    else .error (.unsupported "Unsupported cmpf operand")
  | .other => .error (.unsupported "Unsupported cmpf predicate")

/-- A mixed operand: an IR value or an integer attribute. -/
inductive MixedVal where
  | vval (id : Nat)
  | vattr (c : Int)
deriving DecidableEq, Repr

/-- Index(int64): an index constant from an attribute, two's complement. -/
def attrIndex (c : Int) : Expr :=
  Expr.bv IndexBITS ((c % ((2 : Int) ^ IndexBITS)).toNat)

/-- getFromMixedOps of encode.cpp at type Index. -/
def getFromMixedOpsIdx (st : State) (l : List MixedVal) : EncM (List Expr) :=
  l.mapM (fun s =>
    match s with
    | .vval id => st.getIndex id
    | .vattr c => pure (attrIndex c))

/-- tensor::InsertSliceOp: source, destination, result, and the mixed
offsets/sizes/strides lists. -/
structure InsertSliceOp where
  opId : Nat
  src : Operand
  dst : Operand
  resId : Nat
  resTy : MLIRTy
  offsets : List MixedVal
  sizes : List MixedVal
  strides : List MixedVal
deriving Repr

/-- The per-axis selection condition of insert_slice, accumulated onto true in
loop order: on each axis, (i − offset) mod stride = 0 and
(i − offset) < size · stride (unsigned). -/
def insertSliceCond (indVars offsets sizes strides : List Expr) (rank : Nat) :
    Expr :=
  (List.range rank).foldl
    (fun acc i =>
      Expr.andE acc
        (Expr.andE
          (Expr.isZeroE
            (Expr.umod (Expr.sub (indVars.getD i (IndexC 0)) (offsets.getD i (IndexC 0)))
              (strides.getD i (IndexC 0))))
          (Expr.ult (Expr.sub (indVars.getD i (IndexC 0)) (offsets.getD i (IndexC 0)))
            (Expr.mul (sizes.getD i (IndexC 0)) (strides.getD i (IndexC 0))))))
    (Expr.boolE true)

/-- The per-axis source indices of insert_slice: (i − offset) udiv stride. -/
def insertSliceSrcIdxs (indVars offsets strides : List Expr) (rank : Nat) :
    List Expr :=
  (List.range rank).map (fun i =>
    Expr.udiv (Expr.sub (indVars.getD i (IndexC 0)) (offsets.getD i (IndexC 0)))
      (strides.getD i (IndexC 0)))

/-- encodeOp for tensor::InsertSliceOp. -/
def encodeOp_InsertSlice (st : State) (op : InsertSliceOp) : EncM State := do
  let src ← st.getTensor op.src.id
  let tgt ← st.getTensor op.dst.id
  let rank := op.src.ty.rank
  if ¬ (rank = op.dst.ty.rank ∧ rank = op.resTy.rank) then
    .error (.unsupported
      "Unsupported tensor types of src and dest: their ranks do not match")
  let strides ← getFromMixedOpsIdx st op.strides
  let sizes ← getFromMixedOpsIdx st op.sizes
  let offsets ← getFromMixedOpsIdx st op.offsets
  if ¬ (offsets.length = sizes.length ∧ sizes.length = strides.length ∧
        strides.length = rank) then
    .error (.crash "insert_slice: assert on offsets, sizes, strides lengths")
  let (indVars, st) := st.freshVars rank
  let dims := tgt.dims
  let srcIdxs := insertSliceSrcIdxs indVars offsets strides rank
  let cond := insertSliceCond indVars offsets sizes strides rank
  let (srcelem, srcwb) := src.get srcIdxs
  let (tgtelem, tgtwb) := tgt.get indVars
  let output := Expr.iteE cond srcelem tgtelem
  let st := st.wellDefined (some op.opId)
    (Expr.mkForall indVars (Expr.impliesE (Expr.andE tgtwb cond) srcwb))
  pure (st.addReg op.resId
    (.tensorV (Tensor.mkLambda src.elemTy dims indVars output)))

/-- memref::StoreOp: the stored value (operand 0), the memref (operand 1) and
the index operands. -/
structure StoreOp where
  opId : Nat
  valueOperand : Operand
  memrefId : Nat
  indices : List Nat
deriving Repr

/-- encodeOp for memref::StoreOp: requires an encodeMemWriteOp scope and an
f32-typed stored value; conjoins exactly the store-success predicate. -/
def encodeOp_Store (st : State) (op : StoreOp) (encodeMemWriteOp : Bool) :
    EncM State := do
  if ¬ encodeMemWriteOp then
    .error (.unsupported "We do not support memory writes in this scope")
  let m ← st.getMemRef op.memrefId
  let indices ← op.indices.mapM st.getIndex
  if op.valueOperand.ty = .f32 then do
    let (val, _) ← st.getFloat op.valueOperand.id
    let (mem2, success) := m.store st.mem val indices
    pure (({ st with mem := mem2 }).wellDefined (some op.opId) success)
  else
    .error (.unsupported "unsupported type")

/-- MemRef::isTypeSupported (modelled from the spec: only f32 elements are
supported by the memory encoding). -/
def MemRefIsTypeSupported : MLIRTy → Bool
  | .memrefT _ e _ => e == .f32
  | _ => false

/-- createNewLocalBlk of encode.cpp: adds a fresh local block (with the given
writability) and returns a MemRef to it at offset 0. -/
def createNewLocalBlk (mem : Memory) (dims : List Expr) (memrefTy : MLIRTy)
    (writable : Bool) (freshArr : Nat) : EncM (Memory × MemRefV) := do
  if ¬ MemRefIsTypeSupported memrefTy then
    .error (.unsupported "unsupported element type")
  match memrefTy with
  | .memrefT _ elemTy identLayout =>
    let (m2, bid) := mem.addLocalBlock (get1DSize dims) (Expr.boolE writable)
      freshArr
    pure (m2, ⟨elemTy, bid, IndexZero, dims, identLayout⟩)
  | _ => .error (.crash "createNewLocalBlk: not a memref type")

/-- storeTensorTo of encode.cpp: through an identity layout, storeArray of the
flattened tensor (without the writability check); otherwise a quantified
element-wise equation is conjoined. -/
def storeTensorTo (st : State) (op : Option Nat) (tensor : Tensor)
    (memref : MemRefV) (memrefTy : MLIRTy) : State :=
  match memrefTy with
  | .memrefT _ _ true =>
    let fid := st.fresh
    let st := { st with fresh := fid + 1 }
    let (mem2, success) := memref.storeArray st.mem (tensor.asArray fid)
      IndexZero tensor.get1DSizeT false
    ({ st with mem := mem2 }).wellDefined op success
  | _ =>
    let (idxs, st) := st.freshVars memrefTy.rank
    let (tVal, tSuccess) := tensor.get idxs
    let (mVal, mSuccess) := memref.get st.mem idxs
    let success := Expr.andE tSuccess mSuccess
    let st := st.wellDefined op
      (Expr.mkForall idxs (Expr.impliesE success (Expr.eqE mVal tVal)))
    { st with hasQuantifier := true }

/-- loadTensorFrom of encode.cpp: lift a memref to a lambda-backed tensor. -/
def loadTensorFrom (mem : Memory) (m : MemRefV) (freshBase : Nat) :
    Tensor × Nat :=
  let dims := m.getDims
  let idxs := boundIndexVars freshBase dims.length
  (Tensor.mkLambda m.elemTy dims idxs (m.get mem idxs).1,
   freshBase + dims.length)

/-- memref::BufferCastOp: a tensor operand and a memref-typed result. -/
structure BufferCastOp where
  opId : Nat
  tensorId : Nat
  memrefResId : Nat
  memrefTy : MLIRTy
deriving Repr

/-- encodeOp for memref::BufferCastOp: creates a read-only fresh block and
stores the source tensor into it. -/
def encodeOp_BufferCast (st : State) (op : BufferCastOp)
    (encodeMemWrite : Bool) : EncM State := do
  if ¬ encodeMemWrite then
    .error (.unsupported "We do not support memory writes in this scope")
  let tensor ← st.getTensor op.tensorId
  let dims := tensor.dims
  let fid := st.fresh
  let (mem2, memref) ← createNewLocalBlk st.mem dims op.memrefTy false fid
  let st := { st with mem := mem2, fresh := fid + 1 }
  let st := storeTensorTo st (some op.opId) tensor memref op.memrefTy
  pure (st.addReg op.memrefResId (.memrefV memref))

/-- memref::CloneOp: a memref operand and a memref result. -/
structure CloneOp where
  opId : Nat
  operand : Operand
  resId : Nat
deriving Repr

/-- encodeOp for memref::CloneOp: creates a read-only fresh block, stores the
source contents into it, and marks the source block non-writable. -/
def encodeOp_Clone (st : State) (op : CloneOp) (encodeMemWrite : Bool) :
    EncM State := do
  if ¬ encodeMemWrite then
    .error (.unsupported "We do not support memory writes in this scope")
  let src ← st.getMemRef op.operand.id
  let srcTy := op.operand.ty
  let dims := src.getDims
  let fid := st.fresh
  let (mem2, memref) ← createNewLocalBlk st.mem dims srcTy false fid
  let st := { st with mem := mem2, fresh := fid + 1 }
  let (tensor, fresh2) := loadTensorFrom st.mem src st.fresh
  let st := { st with fresh := fresh2 }
  let st := storeTensorTo st (some op.opId) tensor memref srcTy
  let st := { st with mem := st.mem.setWritable src.bid false }
  pure (st.addReg op.resId (.memrefV memref))

/-- Operations that can appear inside a loop-body block (the scalar ops the
block driver dispatches on, plus the two yield terminators, which have no
dispatch entry and are handled by the pre-hook). -/
inductive BOpKind where
  | addf (res : Nat) (a b : Operand)
  | mulf (res : Nat) (a b : Operand)
  | addi (res a b : Nat) (isIndex : Bool)
  | linalgYield (args : List Nat)
  | tensorYield (arg : Nat)
deriving DecidableEq, Repr

/-- An operation of a block, with its identity for provenance. -/
structure BodyOp where
  opId : Nat
  kind : BOpKind
deriving DecidableEq, Repr

/-- A single-block region: block arguments (ids and types) and operations. -/
structure Block where
  argIds : List Nat
  argTys : List MLIRTy
  ops : List BodyOp
deriving DecidableEq, Repr

/-- Does the op use the given value as an operand (the reduction pre-hook
check)? -/
def bodyOpUsesVal (op : BodyOp) (v : Nat) : Bool :=
  match op.kind with
  | .addf _ a b => a.id == v || b.id == v
  | .mulf _ a b => a.id == v || b.id == v
  | .addi _ a b _ => a == v || b == v
  | .linalgYield args => args.contains v
  | .tensorYield a => a == v

/-- Does the op bind the given value as its result register? -/
def bodyOpDefines (bop : BodyOp) (id : Nat) : Bool :=
  match bop.kind with
  | .addf r _ _ => r == id
  | .mulf r _ _ => r == id
  | .addi r _ _ _ => r == id
  | _ => false

/-- The per-op dispatch of encodeBlock for the body-op kinds; yields have no
dispatch entry, so reaching them raises the generic UnsupportedException. -/
def encodeBodyOp (st : State) (bop : BodyOp) (_emw : Bool) : EncM State :=
  match bop.kind with
  | .addf res a b => encodeBinaryOp st bop.opId res a b (some FloatTm.addF) none
  | .mulf res a b => encodeBinaryOp st bop.opId res a b (some FloatTm.mulF) none
  | .addi res a b isIndex => do
    let ea ← st.getExpr a
    let eb ← st.getExpr b
    pure (st.addReg res
      (if isIndex then .indexV (Expr.add ea eb) else .intV (Expr.add ea eb)))
  | .linalgYield _ => .error (.unsupported "encodeBlock: unknown operation")
  | .tensorYield _ => .error (.unsupported "encodeBlock: unknown operation")

/-- encodeBlock of encode.cpp, specialized to the body-op kinds: iterate the
ops in order, skipping those the pre-hook accepts; after every encoded op the
post-hook folds into the accumulator (the loop-body well-definedness). -/
def encodeBlockAux (emw : Bool) (check : BodyOp → Nat → EncM Bool)
    (callback : State → BodyOp → Expr → Expr) :
    State → Expr → List BodyOp → Nat → EncM (State × Expr)
  | st, acc, [], _ => pure (st, acc)
  | st, acc, op :: rest, index => do
    if ← check op index then
      encodeBlockAux emw check callback st acc rest (index + 1)
    else do
      let st ← encodeBodyOp st op emw
      encodeBlockAux emw check callback st (callback st op acc) rest (index + 1)

/-- The pre-hook of the parallel loop-body encoder: skip (and implicitly
collect) linalg.yield and tensor.yield. -/
def parallelCheckHook (op : BodyOp) (_ : Nat) : EncM Bool :=
  match op.kind with
  | .linalgYield args =>
    if args.length = 0 then .error (.crash "yield with no operands")
    else pure true
  | .tensorYield _ => pure true
  | _ => pure false

/-- The values collected by the parallel pre-hook: the operands of the
linalg.yield / tensor.yield ops, in op order. -/
def yieldedValuesOf (ops : List BodyOp) : List Nat :=
  ops.foldl (fun acc op =>
    match op.kind with
    | .linalgYield args => acc ++ args
    | .tensorYield a => acc ++ [a]
    | _ => acc) []

/-- The post-hook of both loop-body encoders: conjoin the op's recorded
well-definedness into the accumulator. -/
def bodyWdCallback (st : State) (op : BodyOp) (acc : Expr) : Expr :=
  Expr.andE acc (st.isOpWellDefined op.opId)

/-- A loop-body op whose encoding stays scalar: float arithmetic on float
operands (the tensor branch would broadcast), integer addition, or a yield
(which the loop-body encoders always skip). -/
def scalarBodyOp (bop : BodyOp) : Bool :=
  match bop.kind with
  | .addf _ a _ => a.ty.isFloatTy
  | .mulf _ a _ => a.ty.isFloatTy
  | .addi _ _ _ _ => true
  | .linalgYield _ => true
  | .tensorYield _ => true

/-- The ops of a block that the parallel pre-hook does not skip. -/
def nonYieldOps (ops : List BodyOp) : List BodyOp :=
  ops.filter (fun op =>
    match op.kind with
    | .linalgYield _ => false
    | .tensorYield _ => false
    | _ => true)

/-- The loop-body well-definedness accumulated over a block of scalar ops each
of which records no well-definedness conjunct of its own: a conjunction of
true, one conjunct per encoded op. -/
def welldefConj (ops : List BodyOp) : Expr :=
  (nonYieldOps ops).foldl (fun a _ => Expr.andE a (Expr.boolE true))
    (Expr.boolE true)

/-- The MLIR type of a scalar register value (Value::getType on the yielded
values). -/
def valueMLIRTy : ValueTy → Option MLIRTy
  | .floatV _ ty => some ty
  | .intV e => some (.int e.bitwidthE)
  | .indexV _ => some .index
  | _ => none

/-- An iterator type attribute; unknown covers every string other than
parallel, reduction and window. -/
inductive IterTy where
  | parallel
  | reduction
  | window
  | unknown
deriving DecidableEq, Repr

/-- linalg::GenericOp: operands with indexing maps (inputs then outputs),
iterator types, the single body block, and the result value ids. -/
structure GenericOp where
  opId : Nat
  inputs : List Operand
  outputs : List Operand
  indexingMaps : List AffineMap
  iteratorTypes : List IterTy
  block : Block
  resultIds : List Nat
deriving Repr

/-- LinalgOp::hasTensorSemantics (modelled from the MLIR library): no memref
operand, tensor outputs. -/
def GenericOp.hasTensorSemantics (g : GenericOp) : Bool :=
  g.inputs.all (fun o => ¬ o.ty.isMemRefTy) &&
  g.outputs.all (fun o => o.ty.isTensorTy)

/-- LinalgOp::hasBufferSemantics (modelled from the MLIR library): no tensor
operand, memref outputs. -/
def GenericOp.hasBufferSemantics (g : GenericOp) : Bool :=
  g.inputs.all (fun o => ¬ o.ty.isTensorTy) &&
  g.outputs.all (fun o => o.ty.isMemRefTy)

/-- LinalgOp::getLoopsToShapesMap (modelled from the MLIR library): the
concatenation of all indexing-map results. -/
def GenericOp.loopsToShapesMap (g : GenericOp) : AffineMap :=
  { numDims := (g.indexingMaps.headD ⟨0, 0, []⟩).numDims,
    numSyms := 0,
    results := (g.indexingMaps.map AffineMap.results).flatten }

def MemRefV.getDim (m : MemRefV) (i : Nat) : Expr := m.dims.getD i (IndexC 0)

/-- One step of the operand walk of findLoopBounds: append the dims of a
non-zero-rank operand (tensors and memrefs dispatched on their static type). -/
def viewSizesStep (st : State) (acc : List Expr) (oper : Operand) :
    EncM (List Expr) := do
  let r := oper.ty.rank
  if r = 0 then pure acc
  else if oper.ty.isTensorTy then do
    let t ← st.getTensor oper.id
    pure (acc ++ (List.range r).map t.getDim)
  else if oper.ty.isMemRefTy then do
    let m ← st.getMemRef oper.id
    pure (acc ++ (List.range r).map m.getDim)
  else pure acc

/-- The operand walk of findLoopBounds: the dims of every non-zero-rank
operand in order. -/
def genericViewSizes (st : State) (g : GenericOp) : EncM (List Expr) :=
  (g.inputs ++ g.outputs).foldlM (viewSizesStep st) []

/-- The operand walk of encodeUBForTensorShapeMatch: the dims of every
non-zero-rank operand, dispatched on the registered value. -/
def shapeMatchViewSizes (st : State) (g : GenericOp) : EncM (List Expr) :=
  (g.inputs ++ g.outputs).foldlM (fun acc oper => do
    let r := oper.ty.rank
    if r = 0 then pure acc
    else do
      match ← st.getVal oper.id with
      | .memrefV m => pure (acc ++ (List.range r).map m.getDim)
      | .tensorV t => pure (acc ++ (List.range r).map t.getDim)
      | _ => .error (.unsupported "Unsupported ShapedValue")) []

/-- One iteration of the findLoopBounds loop over the loops-to-shapes map
results: the first AffineDimExpr occurrence of a loop iterator binds its
inclusive bound to the matching view size minus 1. -/
def findLoopBoundsStep (viewSizes : List Expr)
    (acc : List Expr × List Int) (p : Nat × AffineExpr) :
    EncM (List Expr × List Int) :=
  match p.2 with
  | .dim pos =>
    if acc.2.getD pos (-1) ≠ -1 then pure acc
    else
      match viewSizes.get? p.1 with
      | some vs =>
        pure (acc.1 ++ [vs.ofs (-1)], acc.2.set pos (Int.ofNat acc.1.length))
      | none => .error (.crash "findLoopBounds: viewSizes out of range")
  | _ => pure acc

/-- The final read-out of findLoopBounds for one loop iterator. -/
def findLoopBoundsOut (res : List Expr) (resFilled : List Int) (i : Nat) :
    EncM Expr :=
  match resFilled.get? i with
  | some k =>
    if 0 ≤ k then
      match res.get? k.toNat with
      | some e => pure e
      | none => .error (.crash "findLoopBounds: unbound induction variable")
    else .error (.crash "findLoopBounds: unbound induction variable")
  | none => .error (.crash "findLoopBounds: unbound induction variable")

def findLoopBounds (st : State) (g : GenericOp) : EncM (List Expr) := do
  let viewSizes ← genericViewSizes st g
  if viewSizes.isEmpty then pure [IndexC 0]
  else do
    let map := g.loopsToShapesMap
    let numDims := map.numDims
    let init : List Expr × List Int := ([], List.replicate numDims (-1))
    let (res, resFilled) ← map.results.enum.foldlM
      (findLoopBoundsStep viewSizes) init
    (List.range numDims).mapM (findLoopBoundsOut res resFilled)

/-- One iteration of the encodeUBForTensorShapeMatch loop: for a
loops-to-shapes result f with matching operand dim, conjoin
dim ≠ 0 ⇒ f(bounds) < dim. -/
def shapeMatchStep (opId : Nat) (indVarBounds viewSizes : List Expr)
    (st : State) (p : Nat × AffineExpr) : EncM State :=
  match encodeAffineExpr indVarBounds [] p.2 with
  | none => .error (.unsupported "unsupported affine Expr")
  | some ae =>
    match viewSizes.get? p.1 with
    | some size =>
      pure (st.wellDefined (some opId)
        (Expr.impliesE size.isNonZero (Expr.ult ae size)))
    | none => .error (.crash "shape match: viewSizes out of range")

def encodeUBForTensorShapeMatch (st : State) (g : GenericOp)
    (indVarBounds : List Expr) : EncM State := do
  let map := g.loopsToShapesMap
  let viewSizes ← shapeMatchViewSizes st g
  map.results.enum.foldlM (shapeMatchStep g.opId indVarBounds viewSizes) st

/-- RegisterFile::add(value, Expr, type): wrap a scalar Expr by its type. -/
def addRegTypedM (st : State) (id : Nat) (e : Expr) (ty : MLIRTy) :
    EncM State :=
  match ty with
  | .f32 => pure (st.addReg id (.floatV e .f32))
  | .f64 => pure (st.addReg id (.floatV e .f64))
  | .f16 => pure (st.addReg id (.floatV e .f16))
  | .int _ => pure (st.addReg id (.intV e))
  | .index => pure (st.addReg id (.indexV e))
  | _ => .error (.crash "add: unsupported scalar type")

/-- One operand of initInputStateForLoopBody: bind the loop-body block
argument to its per-iteration operand view (scalars directly, tensors and
memrefs through their indexing maps at the induction variables); memref reads
conjoin their bounds predicate into the body well-definedness. -/
def initInputStep (g : GenericOp) (inductionVars : List Expr)
    (acc : State × Expr) (p : Nat × Operand) : EncM (State × Expr) := do
  let (st, welldef) := acc
  let (arg_i, op_i) := p
  let indexMap := g.indexingMaps.getD arg_i ⟨0, 0, []⟩
  let argId ← match g.block.argIds.get? arg_i with
    | some a => pure a
    | none => .error (.crash "block argument out of range")
  match op_i.ty with
  | .f32 | .f64 | .f16 => do
    let f ← st.getFloat op_i.id
    pure (st.addReg argId (.floatV f.1 f.2), welldef)
  | .tensorT _ elemty => do
    let t ← st.getTensor op_i.id
    if indexMap.results.length = 0 then do
      let st2 ← addRegTypedM st argId (t.get [IndexZero]).1 elemty
      pure (st2, welldef)
    else do
      let affineExprs ← indexMap.results.mapM (fun r =>
        match encodeAffineExpr inductionVars [] r with
        | some e => pure e
        | none => Except.error (EncErr.unsupported "Unsupported affine expr"))
      let st2 ← addRegTypedM st argId (t.get affineExprs).1 elemty
      pure (st2, welldef)
  | .memrefT _ elemty _ => do
    let m ← st.getMemRef op_i.id
    let affineExprs ← indexMap.results.mapM (fun r =>
      match encodeAffineExpr inductionVars [] r with
      | some e => pure e
      | none => Except.error (EncErr.unsupported "Unsupported affine expr"))
    let (m_elem, m_welldef) := m.get st.mem affineExprs
    pure (st.addReg argId (.floatV m_elem elemty), Expr.andE welldef m_welldef)
  | _ => .error (.unsupported "unsupported block argument type")

/-- initInputStateForLoopBody of encode.cpp: walk the operands in order. -/
def initInputStateForLoopBody (st : State) (g : GenericOp) (welldef : Expr)
    (_isParallelLoop : Bool) : EncM (State × Expr) := do
  let inductionVars ← match st.scopes with
    | scope :: _ => pure scope.indVars
    | [] => .error (.crash "initInputStateForLoopBody: no loop scope")
  if ¬ (g.inputs.length + g.outputs.length = g.indexingMaps.length) then
    .error (.crash "initInputStateForLoopBody: assert on indexing map count")
  (g.inputs ++ g.outputs).enum.foldlM (initInputStep g inductionVars)
    (st, welldef)

/-- encodeParallelLoopBodyAndOutputs of encode.cpp: encode the body (skipping
yields, accumulating per-op well-definedness), then build each result tensor
as a lambda over the output-mapped induction variables, with dimensions
addOne(outputMap(indVarUpperBounds)). -/
def encodeParallelLoopBodyAndOutputs (newst : State) (block : Block)
    (outputMap : AffineMap) (welldef : Expr)
    (outputValMap : Option (Expr → List Expr → Expr)) :
    EncM (List Tensor × State × Expr) := do
  let (newst, welldef) ← encodeBlockAux false parallelCheckHook bodyWdCallback
    newst welldef block.ops 0
  let yieldedValues := yieldedValuesOf block.ops
  let scope ← match newst.scopes with
    | s :: _ => pure s
    | [] => .error (.crash "no loop scope")
  let outputIndVars := doMap scope.indVars outputMap
  let tensorSz := addOne (doMap scope.indVarUpperBounds outputMap)
  let tvec_res ← yieldedValues.mapM (fun yv => do
    let v ← newst.getVal yv
    let ty ← match valueMLIRTy v with
      | some ty => pure ty
      | none => .error (.crash "yielded value is not scalar")
    let resExpr ← newst.getExpr yv
    let resExpr := match outputValMap with
      | some f => f resExpr outputIndVars
      | none => resExpr
    pure (Tensor.mkLambda ty tensorSz outputIndVars resExpr))
  pure (tvec_res, newst, welldef)

/-- The defining op of a value inside a block (Value::getDefiningOp). -/
def defOpOf (ops : List BodyOp) (v : Nat) : Option BodyOp :=
  ops.find? (fun op =>
    match op.kind with
    | .addf res _ _ => res == v
    | .mulf res _ _ => res == v
    | .addi res _ _ _ => res == v
    | _ => false)

/-- The Unsupported message of the reduction matcher. -/
def reductionErrMsg : String :=
  "permutated output map or simple reduction form is supported only"

/-- encodeReductionLoopBodyAndOutput of encode.cpp: match the terminator
against yield(addf(acc, v)), yield(addf(v, acc)), yield(addi(acc, v)) or
yield(addi(v, acc)) with acc the last block argument; encode the body (ops
that use acc are unsupported), and sum the lambda of v over the axes absent
from the output map. -/
def encodeReductionLoopBodyAndOutput (newst : State) (block : Block)
    (indexingMaps : List AffineMap) (outputType : MLIRTy) (welldef : Expr) :
    EncM (Tensor × State × Expr) := do
  let instcount := block.ops.length
  let lastarg ← match block.argIds.getLast? with
    | some a => pure a
    | none => .error (.crash "block has no arguments")
  let lastop ← match block.ops.getLast? with
    | some o => pure o
    | none => .error (.crash "block has no operations")
  let sumvar ← match lastop.kind with
    | .linalgYield [y] =>
      (match defOpOf block.ops y with
       | some dop =>
         match dop.kind with
         | .addf _ a b =>
           if a.id = lastarg then pure b.id
           else if b.id = lastarg then pure a.id
           else Except.error (EncErr.unsupported reductionErrMsg)
         | .addi _ a b _ =>
           if a = lastarg then pure b
           else if b = lastarg then pure a
           else Except.error (EncErr.unsupported reductionErrMsg)
         | _ => Except.error (EncErr.unsupported reductionErrMsg)
       | none => Except.error (EncErr.unsupported reductionErrMsg))
    | _ => .error (.unsupported reductionErrMsg)
  let check : BodyOp → Nat → EncM Bool := fun op opindex =>
    if instcount ≤ opindex + 2 then pure true
    else if bodyOpUsesVal op lastarg then
      .error (.unsupported "Unsupported reduction form because it contains the accumulator")
    else pure false
  let (newst, welldef) ← encodeBlockAux false check bodyWdCallback
    newst welldef block.ops 0
  let outputMap ← match indexingMaps.getLast? with
    | some m => pure m
    | none => .error (.crash "no indexing maps")
  let linalgInfo ← match newst.scopes with
    | s :: _ => pure s
    | [] => .error (.crash "no loop scope")
  let sumvarVal ← newst.getVal sumvar
  let tvTy ← match valueMLIRTy sumvarVal with
    | some ty => pure ty
    | none => .error (.crash "sum variable is not scalar")
  let sumvarExpr ← newst.getExpr sumvar
  let t_v := Tensor.mkLambda tvTy (addOne linalgInfo.indVarUpperBounds)
    linalgInfo.indVars sumvarExpr
  if outputMap.results.all (fun r => r == AffineExpr.cst 0) then do
    let fid := newst.fresh
    let newst := { newst with fresh := fid + 1 }
    let t_res : Tensor :=
      ⟨t_v.elemTy, makeCube (IndexC 1) outputType.rank, [], t_v.sum fid⟩
    pure (t_res, newst, welldef)
  else do
    let used ← outputMap.results.foldlM
      (fun (used : List Bool) r =>
        match r with
        | .dim pos => pure (used.set pos true)
        | _ => Except.error (EncErr.unsupported reductionErrMsg))
      (List.replicate outputMap.numDims false)
    let boundsForRes := (used.enum.filter (fun p => !p.2)).map
      (fun p => linalgInfo.indVarUpperBounds.getD p.1 (IndexC 0))
    let indVarsForRes := (used.enum.filter (fun p => !p.2)).map
      (fun p => linalgInfo.indVars.getD p.1 (IndexC 0))
    let tensorSz := addOne (doMap linalgInfo.indVarUpperBounds outputMap)
    let fid := newst.fresh
    let newst := { newst with fresh := fid + 1 }
    let t_sum := (Tensor.mkLambda t_v.elemTy (addOne boundsForRes)
      indVarsForRes (t_v.get linalgInfo.indVars).1).sum fid
    let outputIndVars := doMap linalgInfo.indVars outputMap
    pure (Tensor.mkLambda t_v.elemTy tensorSz outputIndVars t_sum, newst,
      welldef)

/-- The loop-bound in-bounds antecedent of the generic encoder: the
conjunction (accumulated onto true) of indVars[i] ult (loopBounds[i] + 1). -/
def genericInBounds (indVars loopBounds : List Expr) : Expr :=
  (List.range indVars.length).foldl
    (fun acc i =>
      Expr.andE acc
        (Expr.ult (indVars.getD i (IndexC 0))
          (Expr.add (loopBounds.getD i (IndexC 0)) (Expr.bv IndexBITS 1))))
    (Expr.boolE true)

/-- One step of the tensor-semantics result registration of the generic
encoder: bind getResult(i) to the i-th result tensor. -/
def registerResultStep (g : GenericOp) (st : State) (p : Nat × Tensor) :
    EncM State := do
  match g.resultIds.get? p.1 with
  | some rid => pure (st.addReg rid (.tensorV p.2))
  | none => .error (.crash "getResult out of range")

/-- encodeOp for linalg::GenericOp. -/
def encodeOp_Generic (st : State) (g : GenericOp) (encodeMemWriteOp : Bool) :
    EncM State := do
  if ¬ (g.hasTensorSemantics ∨ g.hasBufferSemantics) then
    .error (.unsupported "tensor/buffer semantics is supported only")
  if g.hasBufferSemantics ∧ ¬ encodeMemWriteOp then
    .error (.unsupported "We do not support memory writes in this scope")
  if ¬ g.block.argTys.all MLIRTy.isSignlessIntOrFloat then
    .error (.unsupported "unsupported block arguments")
  if g.iteratorTypes.any (fun it => it == IterTy.unknown) then
    .error (.unsupported "unsupported iterator type")
  let loopBounds ← findLoopBounds st g
  let st ← encodeUBForTensorShapeMatch st g loopBounds
  let welldef := Expr.boolE true
  let (indVars, newst) := st.freshVars loopBounds.length
  let newst := { newst with scopes := ⟨indVars, loopBounds⟩ :: newst.scopes }
  let outputMap ← match g.indexingMaps.getLast? with
    | some m => pure m
    | none => .error (.crash "no indexing maps")
  let isParallelLoop := outputMap.isPermutation
  let (newst, welldef) ← initInputStateForLoopBody newst g welldef
    isParallelLoop
  let (tvec_res, newst2, welldef) ←
    if isParallelLoop then
      encodeParallelLoopBodyAndOutputs newst g.block outputMap welldef none
    else do
      if 1 < g.outputs.length then
        Except.error (EncErr.unsupported "unsupported reduction form")
      let outputType ← match g.outputs.head? with
        | some o => pure o.ty
        | none => Except.error (EncErr.crash "generic without output")
      let (t_res, newst2, welldef) ← encodeReductionLoopBodyAndOutput newst
        g.block g.indexingMaps outputType welldef
      pure ([t_res], newst2, welldef)
  if tvec_res.any (fun t => t.dims.length = 0) then
    .error (.crash "generic: assert on nonempty result dims")
  let inbounds := genericInBounds indVars loopBounds
  let t_welldef := Expr.mkForall indVars (Expr.impliesE inbounds welldef)
  let st := { st with fresh := newst2.fresh }
  let st := st.wellDefined (some g.opId) t_welldef
  if g.hasTensorSemantics then
    tvec_res.enum.foldlM (registerResultStep g) st
  else if g.hasBufferSemantics then do
    let (st, success) ← tvec_res.enum.foldlM
      (fun (acc : State × Expr) p => do
        let (st, success) := acc
        match g.outputs.get? p.1 with
        | some outOp => do
          let m_res ← st.getMemRef outOp.id
          let fid := st.fresh
          let st := { st with fresh := fid + 1 }
          let (mem2, s) := m_res.storeArray st.mem (p.2.asArray fid) IndexZero
            p.2.get1DSizeT true
          pure ({ st with mem := mem2 }, Expr.andE success s)
        | none => .error (.crash "output operand out of range"))
      (st, Expr.boolE true)
    pure (st.wellDefined (some g.opId) success)
  else .error (.crash "unknown linalg generic semantics")

/-- linalg::PadTensorOp: source tensor, static/dynamic low and high pads, the
padding-body block, and the result. -/
structure PadTensorOp where
  opId : Nat
  resId : Nat
  resTy : MLIRTy
  sourceId : Nat
  lowPad : List MixedVal
  highPad : List MixedVal
  block : Block
deriving Repr

def MLIRTy.hasStaticShape : MLIRTy → Bool
  | .tensorT s _ => s.all Option.isSome
  | .memrefT s _ _ => s.all Option.isSome
  | _ => false

/-- The source-region test of pad_tensor (the isSource accumulation inside
paddingOrSource): per axis, low ≤ i and i < low + sourceDim. -/
def padIsSource (sourceTensor : Tensor) (padSizeLow : List Expr)
    (indvars : List Expr) : Expr :=
  (List.range indvars.length).foldl
    (fun acc i =>
      Expr.andE acc
        (Expr.andE
          (Expr.ule (padSizeLow.getD i (IndexC 0)) (indvars.getD i (IndexC 0)))
          (Expr.ult (indvars.getD i (IndexC 0))
            (Expr.add (padSizeLow.getD i (IndexC 0))
              (sourceTensor.getDim i)))))
    (Expr.boolE true)

/-- The source-region test and index remap of pad_tensor (paddingOrSource):
inside low ≤ i < low + sourceDim per axis pick source[i − low], else the
padding value. -/
def paddingOrSource (sourceTensor : Tensor) (padSizeLow : List Expr)
    (pad : Expr) (indvars : List Expr) : Expr :=
  Expr.iteE (padIsSource sourceTensor padSizeLow indvars)
    (sourceTensor.get ((List.range indvars.length).map
      (fun i => Expr.sub (indvars.getD i (IndexC 0))
        (padSizeLow.getD i (IndexC 0))))).1 pad

/-- One step of the pad encoder's block-argument binding: bind the argument
to its induction variable. -/
def padBindArgStep (indVars : List Expr) (newst : State) (p : Nat × Nat) :
    EncM State :=
  match indVars.get? p.1 with
  | some idxvar => pure (newst.addReg p.2 (.indexV idxvar))
  | none => .error (.crash "pad: block argument out of range")

/-- encodeOp for linalg::PadTensorOp. -/
def encodeOp_PadTensor (st : State) (op : PadTensorOp) : EncM State := do
  let retShape ← match op.resTy with
    | .tensorT s _ => pure s
    | _ => .error (.unsupported "Unsupported type")
  let padSizeLow ← getFromMixedOpsIdx st op.lowPad
  let padSizeHigh ← getFromMixedOpsIdx st op.highPad
  let sourceTensor ← st.getTensor op.sourceId
  let newTensorSize := vecAdd (vecAdd sourceTensor.dims padSizeLow) padSizeHigh
  let loopUpperBound := vecAddElem newTensorSize (attrIndex (-1))
  let (indVars, newst) := st.freshVars loopUpperBound.length
  let newst := { newst with scopes := ⟨indVars, loopUpperBound⟩ :: newst.scopes }
  let newst ← op.block.argIds.enum.foldlM (padBindArgStep indVars) newst
  let identityMap : AffineMap :=
    ⟨retShape.length, 0, (List.range retShape.length).map AffineExpr.dim⟩
  let (tvec_res, newst2, welldef) ← encodeParallelLoopBodyAndOutputs newst
    op.block identityMap (Expr.boolE true)
    (some (paddingOrSource sourceTensor padSizeLow))
  let tfront ← match tvec_res.head? with
    | some t => pure t
    | none => .error (.crash "pad: no output")
  let welldef := Expr.mkForall indVars
    (Expr.impliesE (tfront.isInBounds indVars) welldef)
  let st := { st with fresh := newst2.fresh }
  let st :=
    if op.resTy.hasStaticShape then
      (List.range retShape.length).foldl
        (fun (st : State) i =>
          st.wellDefined (some op.opId)
            (Expr.eqE (tfront.getDim i)
              (IndexC ((retShape.getD i none).getD 0))))
        st
    else st
  let st := st.addReg op.resId (.tensorV tfront)
  pure (st.wellDefined (some op.opId) welldef)

/-!
Concrete example inputs used by the witnesses below.
-/

def exT1 : Tensor := ⟨.f32, [IndexC 2], [indexVar 100], Expr.fconst 0 32⟩

def exT2 : Tensor := ⟨.f32, [IndexC 2], [indexVar 101], Expr.fconst 1 32⟩

def exMem : Memory := ⟨[⟨IndexC 2, Expr.boolE true, Expr.var 300 0⟩]⟩

def exMemRef : MemRefV := ⟨.f32, 0, IndexZero, [IndexC 2], true⟩

def exStoreSt : State :=
  ⟨[(1, .memrefV exMemRef), (7, .floatV (Expr.fconst 3 32) .f32),
    (8, .indexV (IndexC 1))], [], [], exMem, 200, false, false⟩

def exStoreOp : StoreOp := ⟨51, ⟨7, .f32⟩, 1, [8]⟩

def exStoreOpBad : StoreOp := ⟨51, ⟨7, .f64⟩, 1, [8]⟩

/-!
Theorems for the claims.
-/

@[simp] theorem EncM_bind_ok {α β : Type} (a : α) (f : α → EncM β) :
    (Except.ok a >>= f : EncM β) = f a := rfl

@[simp] theorem EncM_bind_error {α β : Type} (e : EncErr) (f : α → EncM β) :
    (Except.error e >>= f : EncM β) = Except.error e := rfl

@[simp] theorem EncM_map_ok {α β : Type} (f : α → β) (a : α) :
    (f <$> (Except.ok a : EncM α)) = Except.ok (f a) := rfl

@[simp] theorem EncM_map_error {α β : Type} (f : α → β) (e : EncErr) :
    (f <$> (Except.error e : EncM α) : EncM β) = Except.error e := rfl

@[simp] theorem EncM_pure_eq {α : Type} (a : α) :
    (pure a : EncM α) = Except.ok a := rfl

theorem EncM_bind_eq_ok {α β : Type} {x : EncM α} {f : α → EncM β} {b : β} :
    (x >>= f) = .ok b ↔ ∃ a, x = .ok a ∧ f a = .ok b := by
  cases x <;> simp

theorem mem_enum_fst_lt {α : Type} (l : List α) (p : Nat × α)
    (h : p ∈ l.enum) : p.1 < l.length := by
  have := List.fst_lt_of_mem_enum h
  exact this

/-- Updating a block below the end of an extended heap leaves the appended
block untouched. -/
theorem updBlock_append {B : List MemBlock} (b : MemBlock) {bid : Nat}
    (h : bid < B.length) (f : MemBlock → MemBlock) :
    (Memory.updBlock ⟨B ++ [b]⟩ bid f).blocks =
      (Memory.updBlock ⟨B⟩ bid f).blocks ++ [b] := by
  simp only [Memory.updBlock, List.enum_append, List.map_append]
  congr 1
  simp only [List.enumFrom, List.map_cons, List.map_nil]
  rw [if_neg (by omega)]

/-- Updating the appended block of an extended heap. -/
theorem updBlock_append_self (B : List MemBlock) (b : MemBlock)
    (f : MemBlock → MemBlock) :
    (Memory.updBlock ⟨B ++ [b]⟩ B.length f).blocks = B ++ [f b] := by
  simp only [Memory.updBlock, List.enum_append, List.map_append]
  congr 1
  · have hc : ∀ p ∈ B.enum,
        (if p.1 = B.length then f p.2 else p.2) = Prod.snd p := by
      intro p hp
      exact if_neg (Nat.ne_of_lt (mem_enum_fst_lt B p hp))
    rw [List.map_congr_left hc, List.enum_map_snd]
  · simp [List.enumFrom]

theorem Memory.eq_of_blocks {m1 m2 : Memory} (h : m1.blocks = m2.blocks) :
    m1 = m2 := by
  cases m1; cases m2; cases h; rfl

/-- Memory-level form of updBlock_append_self. -/
theorem updBlock_append_self_mem (B : List MemBlock) (b : MemBlock)
    (f : MemBlock → MemBlock) :
    (⟨B ++ [b]⟩ : Memory).updBlock B.length f = ⟨B ++ [f b]⟩ :=
  Memory.eq_of_blocks (updBlock_append_self B b f)

/-- Memory-level form of updBlock_append. -/
theorem updBlock_append_mem {B : List MemBlock} (b : MemBlock) {bid : Nat}
    (h : bid < B.length) (f : MemBlock → MemBlock) :
    (⟨B ++ [b]⟩ : Memory).updBlock bid f =
      ⟨(Memory.updBlock ⟨B⟩ bid f).blocks ++ [b]⟩ :=
  Memory.eq_of_blocks (updBlock_append b h f)

/-- Reading a tensor out of a memref is unaffected by blocks appended beyond
its block id. -/
theorem loadTensorFrom_append (B : List MemBlock) (N : MemBlock)
    (src : MemRefV) (f : Nat) (h : src.bid < B.length) :
    loadTensorFrom ⟨B ++ [N]⟩ src f = loadTensorFrom ⟨B⟩ src f := by
  simp [loadTensorFrom, MemRefV.get, List.getElem?_append, h]

/-- C8: memref.clone and memref.buffer_cast each allocate a fresh local block
with writable flag false, store the source's contents into it (conjoining the
store-success predicate into wellDefinedPred), and bind the result to a MemRef
at the new block with offset 0; clone additionally marks the source block
non-writable. -/
theorem C8_clone_buffercast_frame (st : State) (cop : CloneOp)
    (bop : BufferCastOp) (src : MemRefV) (t : Tensor)
    (shp shp2 : List (Option Nat))
    (hsrc : st.getMemRef cop.operand.id = .ok src)
    (hcty : cop.operand.ty = .memrefT shp .f32 true)
    (hbid : src.bid < st.mem.blocks.length)
    (ht : st.getTensor bop.tensorId = .ok t)
    (hbty : bop.memrefTy = .memrefT shp2 .f32 true) :
    (∃ success,
      encodeOp_Clone st cop true = .ok
        { st with
            regs := (cop.resId,
              .memrefV ⟨.f32, st.mem.blocks.length, IndexZero, src.dims,
                true⟩) :: st.regs,
            wdp := st.wdp ++ [(some cop.opId, success)],
            mem := ⟨(st.mem.updBlock src.bid
                (fun blk => { blk with writable := Expr.boolE false })).blocks ++
              [⟨get1DSize src.dims, Expr.boolE false,
                ((loadTensorFrom st.mem src (st.fresh + 1)).1).asArray
                  (st.fresh + 1 + src.dims.length)⟩]⟩,
            fresh := st.fresh + 1 + src.dims.length + 1 }) ∧
    (∃ success,
      encodeOp_BufferCast st bop true = .ok
        { st with
            regs := (bop.memrefResId,
              .memrefV ⟨.f32, st.mem.blocks.length, IndexZero, t.dims,
                true⟩) :: st.regs,
            wdp := st.wdp ++ [(some bop.opId, success)],
            mem := ⟨st.mem.blocks ++
              [⟨get1DSize t.dims, Expr.boolE false,
                t.asArray (st.fresh + 1)⟩]⟩,
            fresh := st.fresh + 1 + 1 }) := by
  constructor
  · exact ⟨_, by
      simp only [encodeOp_Clone, hsrc, hcty, createNewLocalBlk,
        MemRefIsTypeSupported, Memory.addLocalBlock, storeTensorTo,
        MemRefV.storeArray, Tensor.get1DSizeT, Memory.setWritable,
        MemRefV.getDims, State.addReg, State.wellDefined, beq_self_eq_true,
        not_true, Bool.not_true, EncM_bind_ok, EncM_bind_error, EncM_pure_eq,
        ite_false, ite_true, if_false, if_true,
        loadTensorFrom_append _ _ _ _ hbid]
      rw [updBlock_append_self_mem, updBlock_append_mem _ hbid]
      simp only [loadTensorFrom, MemRefV.getDims]
      rfl⟩
  · exact ⟨_, by
      simp only [encodeOp_BufferCast, ht, hbty, createNewLocalBlk,
        MemRefIsTypeSupported, Memory.addLocalBlock, storeTensorTo,
        MemRefV.storeArray, Tensor.get1DSizeT,
        State.addReg, State.wellDefined, beq_self_eq_true,
        not_true, Bool.not_true, EncM_bind_ok, EncM_bind_error, EncM_pure_eq,
        ite_false, ite_true, if_false, if_true]
      rw [updBlock_append_self_mem]⟩

def exC8St : State :=
  ⟨[(1, .memrefV exMemRef), (2, .tensorV exT1)], [], [], exMem, 200, false,
   false⟩

def exCloneOp : CloneOp := ⟨60, ⟨1, .memrefT [some 2] .f32 true⟩, 3⟩

def exBufferCastOp : BufferCastOp := ⟨61, 2, 4, .memrefT [some 2] .f32 true⟩

/-- Witness for C8 at a concrete clone and buffer_cast op. -/
theorem C8_clone_buffercast_witness :
    exMemRef.bid < exC8St.mem.blocks.length ∧
    (∃ st2, encodeOp_Clone exC8St exCloneOp true = .ok st2) ∧
    (∃ st2, encodeOp_BufferCast exC8St exBufferCastOp true = .ok st2) := by
  have h := C8_clone_buffercast_frame exC8St exCloneOp exBufferCastOp exMemRef
    exT1 [some 2] [some 2] rfl rfl (by decide) rfl rfl
  obtain ⟨⟨s1, h1⟩, ⟨s2, h2⟩⟩ := h
  exact ⟨by decide, ⟨_, h1⟩, ⟨_, h2⟩⟩

/-- C10: memref.store is encoded successfully only when memory writes are
enabled for the scope and the stored value's type is f32; a read-only scope or
a non-f32 value type raises an Unsupported failure; on success the only
predicate conjoined into wellDefinedPred is the store-success predicate. -/
theorem C10_store_scope_and_f32_only (st : State) (op : StoreOp)
    (m : MemRefV) (idxs : List Expr) (val : Expr) (vty : MLIRTy)
    (hm : st.getMemRef op.memrefId = .ok m)
    (hidx : op.indices.mapM st.getIndex = .ok idxs)
    (hv : st.getFloat op.valueOperand.id = .ok (val, vty)) :
    (encodeOp_Store st op false =
      .error (.unsupported "We do not support memory writes in this scope")) ∧
    (op.valueOperand.ty ≠ .f32 →
      encodeOp_Store st op true = .error (.unsupported "unsupported type")) ∧
    (op.valueOperand.ty = .f32 →
      encodeOp_Store st op true =
        .ok { st with
                mem := (m.store st.mem val idxs).1,
                wdp := st.wdp ++ [(some op.opId, (m.store st.mem val idxs).2)] }) := by
  refine ⟨?_, ?_, ?_⟩
  · simp [encodeOp_Store]
  · intro hne
    simp only [encodeOp_Store, hm, hidx, Bool.not_true, Except.bind]
    simp [hne]
  · intro heq
    simp only [encodeOp_Store, hm, hidx, Except.bind]
    simp [heq, hv, State.wellDefined]

/-- Witness for C10 at a concrete store op and state. -/
theorem C10_store_witness :
    exStoreSt.getMemRef 1 = .ok exMemRef ∧
    ((encodeOp_Store exStoreSt exStoreOp false =
      .error (.unsupported "We do not support memory writes in this scope")) ∧
     ((⟨7, MLIRTy.f64⟩ : Operand).ty ≠ .f32 →
      encodeOp_Store exStoreSt exStoreOpBad true =
        .error (.unsupported "unsupported type")) ∧
     ((⟨7, MLIRTy.f32⟩ : Operand).ty = .f32 →
      encodeOp_Store exStoreSt exStoreOp true =
        .ok { exStoreSt with
                mem := (exMemRef.store exStoreSt.mem (Expr.fconst 3 32) [IndexC 1]).1,
                wdp := exStoreSt.wdp ++
                  [(some 51, (exMemRef.store exStoreSt.mem (Expr.fconst 3 32) [IndexC 1]).2)] })) := by
  constructor
  · rfl
  · constructor
    · exact (C10_store_scope_and_f32_only exStoreSt exStoreOp exMemRef
        [IndexC 1] (Expr.fconst 3 32) .f32 rfl rfl rfl).1
    constructor
    · exact (C10_store_scope_and_f32_only exStoreSt exStoreOpBad exMemRef
        [IndexC 1] (Expr.fconst 3 32) .f32 rfl rfl rfl).2.1
    · exact (C10_store_scope_and_f32_only exStoreSt exStoreOp exMemRef
        [IndexC 1] (Expr.fconst 3 32) .f32 rfl rfl rfl).2.2

/-- Example state and parallel generic op (one f32 input, one f32 output,
identity maps, an addf body) used by several witnesses. -/
def exGenSt : State :=
  ⟨[(1, .tensorV exT1), (2, .tensorV exT2)], [], [], ⟨[]⟩, 200, false, false⟩

def exGenPar : GenericOp :=
  { opId := 50
    inputs := [⟨1, .tensorT [some 2] .f32⟩]
    outputs := [⟨2, .tensorT [some 2] .f32⟩]
    indexingMaps := [⟨1, 0, [.dim 0]⟩, ⟨1, 0, [.dim 0]⟩]
    iteratorTypes := [.parallel]
    block := ⟨[10, 11], [.f32, .f32],
      [⟨20, .addf 12 ⟨10, .f32⟩ ⟨11, .f32⟩⟩, ⟨21, .linalgYield [12]⟩]⟩
    resultIds := [3] }

/-- The conjunct list appended by encodeUBForTensorShapeMatch (the mapped form
of the loop of the source). -/
def shapeMatchConjuncts (opId : Nat) (bounds viewSizes : List Expr)
    (l : List (Nat × AffineExpr)) : List (Option Nat × Expr) :=
  l.map (fun p =>
    (some opId,
     Expr.impliesE (Expr.isNonZero (viewSizes.getD p.1 (IndexC 0)))
       (Expr.ult ((encodeAffineExpr bounds [] p.2).getD (IndexC 0))
         (viewSizes.getD p.1 (IndexC 0)))))

theorem shapeMatchFold (opId : Nat) (bounds viewSizes : List Expr) :
    ∀ (l : List (Nat × AffineExpr)) (s s2 : State),
    l.foldlM (shapeMatchStep opId bounds viewSizes) s = .ok s2 →
    s2 = { s with wdp := s.wdp ++ shapeMatchConjuncts opId bounds viewSizes l }
  | [], s, s2, h => by
    simp only [List.foldlM, EncM_pure_eq] at h
    cases h
    simp [shapeMatchConjuncts]
  | p :: rest, s, s2, h => by
    simp only [List.foldlM] at h
    cases hae : encodeAffineExpr bounds [] p.2 with
    | none =>
      rw [shapeMatchStep] at h
      rw [hae] at h
      simp at h
    | some ae =>
      cases hvs : viewSizes.get? p.1 with
      | none =>
        rw [shapeMatchStep] at h
        rw [hae, hvs] at h
        simp at h
      | some size =>
        rw [shapeMatchStep] at h
        rw [hae, hvs] at h
        simp only [EncM_pure_eq, EncM_bind_ok] at h
        have ih := shapeMatchFold opId bounds viewSizes rest _ _ h
        rw [ih]
        simp only [State.wellDefined, shapeMatchConjuncts, List.map_cons,
          List.append_assoc, List.singleton_append]
        have hgd : viewSizes.getD p.1 (IndexC 0) = size := by
          simp [List.getD_eq_getElem?_getD, ← List.get?_eq_getElem?, hvs]
        rw [hgd, hae]
        simp [List.append_assoc]

/-- C4: for every result expression f of the loops-to-shapes map with
corresponding operand dimension size dim, the encoder conjoins into
wellDefinedPred the predicate dim ≠ 0 ⇒ f(inferred inclusive bounds) < dim
(unsigned less-than). -/
theorem C4_shape_match_ub (st : State) (g : GenericOp) (bounds : List Expr)
    (st2 : State) (h : encodeUBForTensorShapeMatch st g bounds = .ok st2) :
    ∃ viewSizes, shapeMatchViewSizes st g = .ok viewSizes ∧
      st2.wdp = st.wdp ++ shapeMatchConjuncts g.opId bounds viewSizes
        g.loopsToShapesMap.results.enum := by
  unfold encodeUBForTensorShapeMatch at h
  cases hv : shapeMatchViewSizes st g with
  | error e => rw [hv] at h; simp at h
  | ok viewSizes =>
    rw [hv] at h
    simp only [EncM_bind_ok] at h
    exact ⟨viewSizes, rfl,
      congrArg State.wdp (shapeMatchFold g.opId bounds viewSizes _ _ _ h)⟩

def exShapeSt2 : State :=
  (encodeUBForTensorShapeMatch exGenSt exGenPar [IndexC 1]).toOption.getD
    exGenSt

def exViewSizes : List Expr :=
  (shapeMatchViewSizes exGenSt exGenPar).toOption.getD []

/-- Witness for C4 at a concrete generic op. -/
theorem C4_shape_match_witness :
    encodeUBForTensorShapeMatch exGenSt exGenPar [IndexC 1] = .ok exShapeSt2 ∧
    shapeMatchViewSizes exGenSt exGenPar = .ok exViewSizes ∧
    exShapeSt2.wdp = exGenSt.wdp ++ shapeMatchConjuncts exGenPar.opId
      [IndexC 1] exViewSizes exGenPar.loopsToShapesMap.results.enum := by
  refine ⟨rfl, rfl, ?_⟩
  obtain ⟨vs, hvs, hwdp⟩ :=
    C4_shape_match_ub exGenSt exGenPar [IndexC 1] exShapeSt2 rfl
  have hv : vs = exViewSizes := by
    have : Except.ok vs = Except.ok exViewSizes :=
      hvs.symm.trans (rfl : shapeMatchViewSizes exGenSt exGenPar = .ok exViewSizes)
    exact Except.ok.inj this
  rw [hv] at hwdp
  exact hwdp

/-- C7 counterexample inputs: two f32 tensors of static shape [2]; the first
is registered with the (semantically equal, syntactically distinct) dimension
expression 1+1. -/
def cexT1 : Tensor :=
  ⟨.f32, [Expr.add (IndexC 1) (IndexC 1)], [indexVar 100], Expr.fconst 0 32⟩

def cexT2 : Tensor := ⟨.f32, [IndexC 2], [indexVar 101], Expr.fconst 1 32⟩

def cexSt : State :=
  ⟨[(1, .tensorV cexT1), (2, .tensorV cexT2)], [], [], ⟨[]⟩, 200, false, false⟩

def cexA0 : Operand := ⟨1, .tensorT [some 2] .f32⟩

def cexA1 : Operand := ⟨2, .tensorT [some 2] .f32⟩

def cexCmpSt2 : State :=
  (encodeOp_CmpF cexSt 70 3 .OLT cexA0 cexA1 (.int 1)).toOption.getD cexSt

/-- The dims of the first broadcast tensor of the counterexample operands. -/
def cexBDims : List Expr :=
  match broadcastTensors cexSt cexA0 cexA1 with
  | .ok (some (m0, _), _) => m0.dims
  | _ => []

/-- The dims of the tensor bound to the cmpf result. -/
def cexCmpResDims : List Expr :=
  match cexCmpSt2.regs.lookup 3 with
  | some (.tensorV t) => t.dims
  | _ => []

/-- Counterexample to C7 as stated: in the cmpf OLT tensor branch the
operands are not run through broadcastTensors; the result tensor carries the
raw first-operand dimension vector, which differs from the common broadcast
shape, and the conjoined predicate equates the raw (not the broadcast)
dimension vectors. -/
theorem C7_cmpf_no_broadcast_cex :
    encodeOp_CmpF cexSt 70 3 .OLT cexA0 cexA1 (.int 1) = .ok cexCmpSt2 ∧
    cexBDims = [IndexC 2] ∧
    cexCmpResDims = [Expr.add (IndexC 1) (IndexC 1)] ∧
    cexCmpResDims ≠ cexBDims ∧
    cexCmpSt2.wdp =
      [(some 70, listsEqual [Expr.add (IndexC 1) (IndexC 1)] [IndexC 2])] ∧
    listsEqual [Expr.add (IndexC 1) (IndexC 1)] [IndexC 2] ≠
      listsEqual cexBDims cexBDims := by
  refine ⟨rfl, rfl, rfl, ?_, rfl, ?_⟩
  · decide
  · decide

/-- C7 (amended): every element-wise binary op encoded through encodeBinaryOp
(arith addf/subf/mulf, tosa add/sub/mul, tosa bitwise and/or/xor) broadcasts
its ranked-tensor operands through broadcastTensors (NumPy style, with
separately maintained per-operand dimension vectors), always conjoins the
shape-mismatch predicate listsEqual(dims a, dims b) on the broadcast
dimension vectors, and binds a result tensor carrying the first broadcast
operand's shape; the cmpf OLT tensor branch instead applies fult element-wise
to the raw operand tensors (which MLIR forces to share one type) and conjoins
listsEqual on the raw dimension vectors. -/
theorem C7_elementwise_broadcast_shape_ub
    (st : State) (opId resId : Nat) (arg0 arg1 : Operand)
    (f_float : Option (FloatTm → FloatTm → FloatTm))
    (f_int : Option (Expr → Expr → Expr))
    (shape0 : List (Option Nat)) (elemty : MLIRTy)
    (harg0 : arg0.ty = .tensorT shape0 elemty) (st2 : State)
    (h : encodeBinaryOp st opId resId arg0 arg1 f_float f_int = .ok st2)
    (cst : State) (copId cresId : Nat) (carg0 carg1 : Operand)
    (cresElemTy : MLIRTy) (ta tb : Tensor)
    (hcty0 : carg0.ty.isTensorTy = true) (hcty1 : carg1.ty.isTensorTy = true)
    (hta : cst.getTensor carg0.id = .ok ta)
    (htb : cst.getTensor carg1.id = .ok tb)
    (heq : ta.elemTy = tb.elemTy) (hfl : ta.elemTy.isFloatTy = true) :
    (∃ a b st1, broadcastTensors st arg0 arg1 = .ok (some (a, b), st1) ∧
      st2.wdp = st1.wdp ++ [(some opId, listsEqual a.dims b.dims)] ∧
      ∃ body, st2.regs =
        (resId, .tensorV (Tensor.mkLambda elemty a.dims a.vars body)) ::
          st1.regs) ∧
    encodeOp_CmpF cst copId cresId .OLT carg0 carg1 cresElemTy = .ok
      ((cst.addReg cresId (.tensorV (ta.elementwiseBinOp tb cresElemTy
          (fun ea eb => FloatTm.fultF (ea, ta.elemTy) (eb, ta.elemTy))))).wellDefined
        (some copId) (listsEqual ta.dims tb.dims)) := by
  constructor
  · rw [encodeBinaryOp] at h
    have hnf : arg0.ty.isFloatTy = false := by rw [harg0]; rfl
    rw [hnf] at h
    simp only [Bool.false_eq_true, if_false] at h
    rw [harg0] at h
    by_cases hio : elemty.isIntOrFloat = true
    · simp only [hio, not_true, Bool.not_true, if_false, ite_false,
        Bool.true_eq_false, reduceIte, EncM_pure_eq, EncM_bind_ok] at h
      cases hb : broadcastTensors st arg0 arg1 with
      | error e => rw [hb] at h; simp at h
      | ok pr =>
        obtain ⟨bts, st1⟩ := pr
        rw [hb] at h
        cases bts with
        | none => simp at h
        | some ab =>
          obtain ⟨a, b⟩ := ab
          simp only [EncM_bind_ok] at h
          rw [EncM_bind_eq_ok] at h
          obtain ⟨body, hX, hres⟩ := h
          simp only [EncM_pure_eq, Except.ok.injEq] at hres
          refine ⟨a, b, st1, rfl, ?_, body, ?_⟩
          · rw [← hres]; rfl
          · rw [← hres]; rfl
    · simp [eq_false_of_ne_true hio] at h
  · rw [encodeOp_CmpF]
    simp only [hcty0, hcty1, and_self, ite_true, hta, htb, EncM_bind_ok, heq,
      not_true, hfl, ite_false, ite_true, EncM_pure_eq]
    simp [heq]
    rw [← heq]
    exact hfl


def exBinSt2 : State :=
  (encodeBinaryOp exGenSt 80 5 ⟨1, .tensorT [some 2] .f32⟩
    ⟨2, .tensorT [some 2] .f32⟩ (some FloatTm.addF) none).toOption.getD exGenSt

/-- Witness for C7 at a concrete addf (through encodeBinaryOp) and a concrete
cmpf OLT over f32 tensors. -/
theorem C7_elementwise_witness :
    (encodeBinaryOp exGenSt 80 5 ⟨1, .tensorT [some 2] .f32⟩
      ⟨2, .tensorT [some 2] .f32⟩ (some FloatTm.addF) none = .ok exBinSt2) ∧
    encodeOp_CmpF exGenSt 81 6 .OLT ⟨1, .tensorT [some 2] .f32⟩
      ⟨2, .tensorT [some 2] .f32⟩ (.int 1) = .ok
      ((exGenSt.addReg 6 (.tensorV (exT1.elementwiseBinOp exT2 (.int 1)
          (fun ea eb => FloatTm.fultF (ea, exT1.elemTy) (eb, exT1.elemTy))))).wellDefined
        (some 81) (listsEqual exT1.dims exT2.dims)) := by
  refine ⟨rfl, ?_⟩
  exact (C7_elementwise_broadcast_shape_ub exGenSt 80 5
    ⟨1, .tensorT [some 2] .f32⟩ ⟨2, .tensorT [some 2] .f32⟩
    (some FloatTm.addF) none [some 2] .f32 rfl exBinSt2 rfl
    exGenSt 81 6 ⟨1, .tensorT [some 2] .f32⟩ ⟨2, .tensorT [some 2] .f32⟩
    (.int 1) exT1 exT2 rfl rfl rfl rfl rfl rfl).2

theorem evalAnd_some_true (env : Env) (a b : Expr) :
    (Expr.andE a b).eval env = some (.vb true) ↔
      a.eval env = some (.vb true) ∧ b.eval env = some (.vb true) := by
  rw [Expr.eval]
  cases ha : a.eval env with
  | none => simp
  | some va =>
    cases hb2 : b.eval env with
    | none => cases va <;> simp
    | some vb3 => cases va <;> cases vb3 <;> simp [Bool.and_eq_true]

theorem evalAndFoldl (env : Env) (f : Nat → Expr) :
    ∀ (l : List Nat) (init : Expr),
    ((l.foldl (fun acc i => Expr.andE acc (f i)) init).eval env =
        some (.vb true)) ↔
      (init.eval env = some (.vb true) ∧
       ∀ i ∈ l, (f i).eval env = some (.vb true))
  | [], init => by simp
  | i :: rest, init => by
    rw [List.foldl_cons, evalAndFoldl env f rest, evalAnd_some_true]
    constructor
    · rintro ⟨⟨h1, h2⟩, h3⟩
      exact ⟨h1, by
        intro j hj
        rcases List.mem_cons.1 hj with hj | hj
        · cases hj; exact h2
        · exact h3 j hj⟩
    · rintro ⟨h1, h2⟩
      exact ⟨⟨h1, h2 i (List.mem_cons_self i rest)⟩,
        fun j hj => h2 j (List.mem_cons_of_mem i hj)⟩

theorem boundIndexVars_getD (base n k : Nat) (d : Expr) (hk : k < n) :
    (boundIndexVars base n).getD k d = indexVar (base + k) := by
  simp [boundIndexVars, List.getD_eq_getElem?_getD, List.getElem?_map,
    List.getElem?_range, hk]

/-- The bit-vector semantics of one axis of the insert_slice selection
condition: (i − offset) mod stride = 0 (with SMT urem semantics at stride 0)
and (i − offset) < size · stride, all modulo 2^BITS. -/
def sliceAxisOk (iv ov sv tv : Nat) : Prop :=
  (if tv = 0 then (iv + (2 ^ IndexBITS - ov)) % 2 ^ IndexBITS
   else ((iv + (2 ^ IndexBITS - ov)) % 2 ^ IndexBITS) % tv) = 0 ∧
  (iv + (2 ^ IndexBITS - ov)) % 2 ^ IndexBITS < sv * tv % 2 ^ IndexBITS

theorem sliceAxisEval (env : Env) (base : Nat) (offsets sizes strides : List Expr)
    (ov sv tv : Nat → Nat) (k rank : Nat) (hk : k < rank)
    (ho : (offsets.getD k (IndexC 0)).eval env = some (.vbv IndexBITS (ov k)))
    (hs : (sizes.getD k (IndexC 0)).eval env = some (.vbv IndexBITS (sv k)))
    (ht : (strides.getD k (IndexC 0)).eval env = some (.vbv IndexBITS (tv k))) :
    ((Expr.andE
        (Expr.isZeroE
          (Expr.umod (Expr.sub ((boundIndexVars base rank).getD k (IndexC 0))
            (offsets.getD k (IndexC 0))) (strides.getD k (IndexC 0))))
        (Expr.ult (Expr.sub ((boundIndexVars base rank).getD k (IndexC 0))
            (offsets.getD k (IndexC 0)))
          (Expr.mul (sizes.getD k (IndexC 0)) (strides.getD k (IndexC 0))))).eval
        env = some (.vb true)) ↔
      sliceAxisOk (env.iv (base + k) % 2 ^ IndexBITS) (ov k) (sv k) (tv k) := by
  rw [boundIndexVars_getD base rank k (IndexC 0) hk]
  rw [evalAnd_some_true]
  simp only [Expr.eval, ho, hs, ht, indexVar]
  simp [sliceAxisOk]

/-- C5: for rank-matched tensor.insert_slice, the result at output index i is
the source element at (i − offsets) udiv strides when on every axis
(i − offsets) mod strides = 0 and (i − offsets) ult sizes · strides, else the
destination element at i; and the obligation
∀i. (dest in-bounds at i ∧ condition) ⇒ source in-bounds is conjoined into
wellDefinedPred.  The selection condition's bit-vector semantics is
characterized by sliceAxisOk. -/
theorem C5_insert_slice_select (st : State) (op : InsertSliceOp)
    (src tgt : Tensor) (offsets sizes strides : List Expr) (st2 : State)
    (hsrcT : st.getTensor op.src.id = .ok src)
    (htgtT : st.getTensor op.dst.id = .ok tgt)
    (hstr : getFromMixedOpsIdx st op.strides = .ok strides)
    (hsz : getFromMixedOpsIdx st op.sizes = .ok sizes)
    (hof : getFromMixedOpsIdx st op.offsets = .ok offsets)
    (h : encodeOp_InsertSlice st op = .ok st2) :
    (st2.regs = (op.resId, .tensorV (Tensor.mkLambda src.elemTy tgt.dims
      (boundIndexVars st.fresh op.src.ty.rank)
      (Expr.iteE
        (insertSliceCond (boundIndexVars st.fresh op.src.ty.rank) offsets
          sizes strides op.src.ty.rank)
        (src.get (insertSliceSrcIdxs (boundIndexVars st.fresh op.src.ty.rank)
          offsets strides op.src.ty.rank)).1
        (tgt.get (boundIndexVars st.fresh op.src.ty.rank)).1))) :: st.regs) ∧
    (st2.wdp = st.wdp ++ [(some op.opId,
      Expr.mkForall (boundIndexVars st.fresh op.src.ty.rank)
        (Expr.impliesE
          (Expr.andE (tgt.get (boundIndexVars st.fresh op.src.ty.rank)).2
            (insertSliceCond (boundIndexVars st.fresh op.src.ty.rank) offsets
              sizes strides op.src.ty.rank))
          (src.get (insertSliceSrcIdxs (boundIndexVars st.fresh op.src.ty.rank)
            offsets strides op.src.ty.rank)).2))]) ∧
    (∀ (env : Env) (ov sv tv : Nat → Nat),
      (∀ k, k < op.src.ty.rank →
        (offsets.getD k (IndexC 0)).eval env = some (.vbv IndexBITS (ov k))) →
      (∀ k, k < op.src.ty.rank →
        (sizes.getD k (IndexC 0)).eval env = some (.vbv IndexBITS (sv k))) →
      (∀ k, k < op.src.ty.rank →
        (strides.getD k (IndexC 0)).eval env = some (.vbv IndexBITS (tv k))) →
      ((insertSliceCond (boundIndexVars st.fresh op.src.ty.rank) offsets sizes
          strides op.src.ty.rank).eval env = some (.vb true) ↔
        ∀ k, k < op.src.ty.rank →
          sliceAxisOk (env.iv (st.fresh + k) % 2 ^ IndexBITS) (ov k) (sv k)
            (tv k))) ∧
    (∀ (env : Env) (b : Bool) (S T : Expr),
      (insertSliceCond (boundIndexVars st.fresh op.src.ty.rank) offsets sizes
        strides op.src.ty.rank).eval env = some (.vb b) →
      (Expr.iteE (insertSliceCond (boundIndexVars st.fresh op.src.ty.rank)
          offsets sizes strides op.src.ty.rank) S T).eval env =
        if b then S.eval env else T.eval env) := by
  rw [encodeOp_InsertSlice] at h
  simp only [hsrcT, htgtT, hstr, hsz, hof, EncM_bind_ok] at h
  by_cases hrk : (op.src.ty.rank = op.dst.ty.rank ∧
      op.src.ty.rank = op.resTy.rank)
  case neg =>
    rw [if_pos hrk] at h
    simp at h
  case pos =>
  rw [if_neg (not_not_intro hrk)] at h
  by_cases hlen : (offsets.length = sizes.length ∧
      sizes.length = strides.length ∧ strides.length = op.src.ty.rank)
  case neg =>
    simp only [EncM_pure_eq, EncM_bind_ok] at h
    rw [if_pos hlen] at h
    simp at h
  case pos =>
  simp only [EncM_pure_eq, EncM_bind_ok] at h
  rw [if_neg (not_not_intro hlen)] at h
  simp only [EncM_pure_eq, EncM_bind_ok, State.freshVars, State.wellDefined,
    State.addReg] at h
  obtain rfl : _ = st2 := Except.ok.inj h
  refine ⟨rfl, rfl, ?_, ?_⟩
  · intro env ov sv tv hov hsv htv
    have h1 := evalAndFoldl env (fun i =>
      Expr.andE
        (Expr.isZeroE
          (Expr.umod (Expr.sub ((boundIndexVars st.fresh op.src.ty.rank).getD i
            (IndexC 0)) (offsets.getD i (IndexC 0)))
            (strides.getD i (IndexC 0))))
        (Expr.ult (Expr.sub ((boundIndexVars st.fresh op.src.ty.rank).getD i
            (IndexC 0)) (offsets.getD i (IndexC 0)))
          (Expr.mul (sizes.getD i (IndexC 0)) (strides.getD i (IndexC 0)))))
      (List.range op.src.ty.rank) (Expr.boolE true)
    rw [show (insertSliceCond (boundIndexVars st.fresh op.src.ty.rank) offsets
        sizes strides op.src.ty.rank) = (List.range op.src.ty.rank).foldl _
        (Expr.boolE true) from rfl]
    rw [h1]
    simp only [List.mem_range]
    constructor
    · rintro ⟨_, hall⟩ k hk
      exact (sliceAxisEval env st.fresh offsets sizes strides ov sv tv k
        op.src.ty.rank hk (hov k hk) (hsv k hk) (htv k hk)).1 (hall k hk)
    · intro hsem
      refine ⟨by rw [Expr.eval], fun k hk => ?_⟩
      exact (sliceAxisEval env st.fresh offsets sizes strides ov sv tv k
        op.src.ty.rank hk (hov k hk) (hsv k hk) (htv k hk)).2 (hsem k hk)
  · intro env b S T hc
    rw [Expr.eval, hc]
    cases b <;> simp

def exT4 : Tensor := ⟨.f32, [IndexC 4], [indexVar 101], Expr.fconst 1 32⟩

def exISSt : State :=
  ⟨[(1, .tensorV exT1), (2, .tensorV exT4)], [], [], ⟨[]⟩, 200, false, false⟩

def exISOp : InsertSliceOp :=
  ⟨90, ⟨1, .tensorT [some 2] .f32⟩, ⟨2, .tensorT [some 4] .f32⟩, 3,
   .tensorT [some 4] .f32, [.vattr 1], [.vattr 2], [.vattr 1]⟩

def exISSt2 : State :=
  (encodeOp_InsertSlice exISSt exISOp).toOption.getD exISSt

def env0 : Env :=
  ⟨fun _ => 1, fun v _ => v, fun v _ => v, fun v => v, fun v => v,
   fun _ _ => false, fun _ _ => .vb false⟩

/-- Witness for C5 at a concrete insert_slice (offsets 1, sizes 2, strides 1)
and a concrete valuation where index 1 selects the source element. -/
theorem C5_insert_slice_witness :
    encodeOp_InsertSlice exISSt exISOp = .ok exISSt2 ∧
    exISSt2.regs = (3, .tensorV (Tensor.mkLambda MLIRTy.f32 [IndexC 4]
      (boundIndexVars 200 1)
      (Expr.iteE
        (insertSliceCond (boundIndexVars 200 1) [attrIndex 1] [attrIndex 2]
          [attrIndex 1] 1)
        (exT1.get (insertSliceSrcIdxs (boundIndexVars 200 1) [attrIndex 1]
          [attrIndex 1] 1)).1
        (exT4.get (boundIndexVars 200 1)).1))) :: exISSt.regs ∧
    (insertSliceCond (boundIndexVars 200 1) [attrIndex 1] [attrIndex 2]
      [attrIndex 1] 1).eval env0 = some (.vb true) := by
  have h := C5_insert_slice_select exISSt exISOp exT1 exT4 [attrIndex 1]
    [attrIndex 2] [attrIndex 1] exISSt2 rfl rfl rfl rfl rfl rfl
  refine ⟨rfl, h.1, ?_⟩
  refine (h.2.2.1 env0 (fun _ => 1) (fun _ => 2) (fun _ => 1) ?_ ?_ ?_).2 ?_
  · intro k hk
    have hz : k = 0 := Nat.lt_one_iff.mp hk
    subst hz
    decide
  · intro k hk
    have hz : k = 0 := Nat.lt_one_iff.mp hk
    subst hz
    decide
  · intro k hk
    have hz : k = 0 := Nat.lt_one_iff.mp hk
    subst hz
    decide
  · intro k hk
    have hz : k = 0 := Nat.lt_one_iff.mp hk
    subst hz
    simp only [sliceAxisOk]
    decide

theorem getD_set_self (l : List Int) (i : Nat) (a : Int) (h : i < l.length) :
    (l.set i a).getD i (-1) = a := by
  simp [List.getD_eq_getElem?_getD, List.getElem?_set_eq h]

theorem getD_set_ne (l : List Int) (i j : Nat) (a : Int) (h : i ≠ j) :
    (l.set i a).getD j (-1) = l.getD j (-1) := by
  simp [List.getD_eq_getElem?_getD, List.getElem?_set_ne h]

/-- The findLoopBounds loop only appends to res, preserves the length of
resFilled, and never overwrites a filled entry. -/
theorem findLoopBoundsFold_mono (viewSizes : List Expr) :
    ∀ (l : List (Nat × AffineExpr)) (acc out : List Expr × List Int),
    l.foldlM (findLoopBoundsStep viewSizes) acc = .ok out →
    (∃ suffix, out.1 = acc.1 ++ suffix) ∧
    out.2.length = acc.2.length ∧
    (∀ k, acc.2.getD k (-1) ≠ -1 → out.2.getD k (-1) = acc.2.getD k (-1))
  | [], acc, out, h => by
    simp only [List.foldlM, EncM_pure_eq] at h
    cases h
    exact ⟨⟨[], by simp⟩, rfl, fun _ _ => rfl⟩
  | p :: rest, acc, out, h => by
    simp only [List.foldlM] at h
    obtain ⟨pidx, pe⟩ := p
    cases pe
    case dim pos =>
      simp only [findLoopBoundsStep] at h
      by_cases hfilled : acc.2.getD pos (-1) ≠ -1
      · rw [if_pos hfilled] at h
        simp only [EncM_pure_eq, EncM_bind_ok] at h
        exact findLoopBoundsFold_mono viewSizes rest acc out h
      · rw [if_neg hfilled] at h
        cases hv : viewSizes.get? pidx with
        | none => rw [hv] at h; simp at h
        | some v =>
          rw [hv] at h
          simp only [EncM_pure_eq, EncM_bind_ok] at h
          obtain ⟨⟨suf, hsuf⟩, hlen, hpres⟩ :=
            findLoopBoundsFold_mono viewSizes rest _ out h
          refine ⟨⟨(v.ofs (-1)) :: suf, by simpa using hsuf⟩,
            by simpa using hlen, ?_⟩
          intro k hk
          have hkpos : k ≠ pos := by
            intro he; subst he; exact hk (not_not.mp hfilled)
          have h1 : (acc.2.set pos (Int.ofNat acc.1.length)).getD k (-1) =
              acc.2.getD k (-1) :=
            getD_set_ne _ _ _ _ (fun he => hkpos he.symm)
          rw [hpres k (by rw [h1]; exact hk), h1]
    all_goals
      simp only [findLoopBoundsStep, EncM_pure_eq, EncM_bind_ok] at h
      exact findLoopBoundsFold_mono viewSizes rest acc out h

/-- The first-occurrence invariant of the findLoopBounds loop: an iterator
still unfilled before the loop ends up bound to viewSizes[idx] − 1 for the
first result index idx at which it occurs as a dim expression, and stays
unfilled if it never occurs. -/
theorem findLoopBoundsFold_first (viewSizes : List Expr) :
    ∀ (l : List (Nat × AffineExpr)) (acc out : List Expr × List Int),
    l.foldlM (findLoopBoundsStep viewSizes) acc = .ok out →
    ∀ k, k < acc.2.length → acc.2.getD k (-1) = -1 →
    (match l.find? (fun q => q.2 == AffineExpr.dim k) with
     | some p => ∃ v, viewSizes.get? p.1 = some v ∧
         ∃ i, out.2.getD k (-1) = Int.ofNat i ∧
           out.1.get? i = some (v.ofs (-1))
     | none => out.2.getD k (-1) = -1)
  | [], acc, out, h, k, hk, hunf => by
    simp only [List.foldlM, EncM_pure_eq] at h
    cases h
    simpa using hunf
  | p :: rest, acc, out, h, k, hk, hunf => by
    simp only [List.foldlM] at h
    obtain ⟨pidx, pe⟩ := p
    cases pe
    case dim pos =>
      simp only [findLoopBoundsStep] at h
      by_cases hkp : pos = k
      · subst hkp
        rw [if_neg (not_not_intro hunf)] at h
        cases hv : viewSizes.get? pidx with
        | none => rw [hv] at h; simp at h
        | some v =>
          rw [hv] at h
          simp only [EncM_pure_eq, EncM_bind_ok] at h
          have hfind : ((pidx, AffineExpr.dim pos) :: rest).find?
              (fun q => q.2 == AffineExpr.dim pos) =
              some (pidx, AffineExpr.dim pos) := by
            rw [List.find?_cons_of_pos]
            simp
          rw [hfind]
          refine ⟨v, hv, acc.1.length, ?_, ?_⟩
          · obtain ⟨_, _, hpres⟩ :=
              findLoopBoundsFold_mono viewSizes rest _ out h
            have hset : (acc.2.set pos
                (Int.ofNat acc.1.length)).getD pos (-1) =
                Int.ofNat acc.1.length := getD_set_self _ _ _ hk
            rw [hpres pos (by rw [hset]; intro hc; simp at hc), hset]
          · obtain ⟨⟨suf, hsuf⟩, _, _⟩ :=
              findLoopBoundsFold_mono viewSizes rest _ out h
            rw [hsuf]
            simp only [List.append_assoc, List.singleton_append,
              List.get?_eq_getElem?]
            rw [List.getElem?_append_right (Nat.le_refl _)]
            simp
      · have hfind : ((pidx, AffineExpr.dim pos) :: rest).find?
            (fun q => q.2 == AffineExpr.dim k) =
            rest.find? (fun q => q.2 == AffineExpr.dim k) := by
          rw [List.find?_cons_of_neg]
          simp [hkp]
        rw [hfind]
        by_cases hfilled : acc.2.getD pos (-1) ≠ -1
        · rw [if_pos hfilled] at h
          simp only [EncM_pure_eq, EncM_bind_ok] at h
          exact findLoopBoundsFold_first viewSizes rest acc out h k hk hunf
        · rw [if_neg hfilled] at h
          cases hv : viewSizes.get? pidx with
          | none => rw [hv] at h; simp at h
          | some v =>
            rw [hv] at h
            simp only [EncM_pure_eq, EncM_bind_ok] at h
            refine findLoopBoundsFold_first viewSizes rest _ out h k ?_ ?_
            · simpa using hk
            · rw [getD_set_ne _ _ _ _ hkp]
              exact hunf
    all_goals
      simp only [findLoopBoundsStep, EncM_pure_eq, EncM_bind_ok] at h
      rw [List.find?_cons_of_neg _ (by simp)]
      exact findLoopBoundsFold_first viewSizes rest acc out h k hk hunf

theorem mapM_ok_get {α β : Type} (f : α → EncM β) :
    ∀ (l : List α) (out : List β), l.mapM f = .ok out →
    ∀ i x, l.get? i = some x → ∃ b, f x = .ok b ∧ out.get? i = some b
  | [], out, h, i, x, hx => by simp at hx
  | a :: l, out, h, i, x, hx => by
    rw [List.mapM_cons] at h
    cases hfa : f a with
    | error e => rw [hfa] at h; simp at h
    | ok b =>
      rw [hfa] at h
      simp only [EncM_bind_ok] at h
      cases hml : l.mapM f with
      | error e => rw [hml] at h; simp at h
      | ok bs =>
        rw [hml] at h
        simp only [EncM_bind_ok, EncM_pure_eq] at h
        obtain rfl : b :: bs = out := Except.ok.inj h
        cases i with
        | zero =>
          obtain rfl : a = x := by simpa using hx
          exact ⟨b, hfa, rfl⟩
        | succ i =>
          obtain ⟨b2, hb2, hout2⟩ :=
            mapM_ok_get f l bs hml i x (by simpa using hx)
          exact ⟨b2, hb2, by simpa using hout2⟩

/-- A walk over rank-0 operands collects nothing. -/
theorem viewSizes_rank0 (st : State) :
    ∀ (l : List Operand) (acc : List Expr),
    l.all (fun o => o.ty.rank == 0) = true →
    l.foldlM (viewSizesStep st) acc = .ok acc
  | [], acc, _ => rfl
  | o :: l, acc, hall => by
    simp only [List.all_cons, Bool.and_eq_true, beq_iff_eq] at hall
    simp only [List.foldlM, viewSizesStep, hall.1, ite_true, EncM_pure_eq,
      EncM_bind_ok, reduceIte]
    exact viewSizes_rank0 st l acc (by
      simpa using hall.2)

theorem findLoopBoundsOut_some (res : List Expr) (resFilled : List Int)
    (i k : Nat) (e : Expr) (hget : resFilled.get? k = some (Int.ofNat i))
    (hres : res.get? i = some e) :
    findLoopBoundsOut res resFilled k = .ok e := by
  rw [findLoopBoundsOut]
  rw [List.get?_eq_getElem?] at hget hres
  rw [List.get?_eq_getElem?, hget]
  simp [hres]

theorem findLoopBoundsOut_unfilled (res : List Expr) (resFilled : List Int)
    (k : Nat) (hget : resFilled.get? k = some (-1)) :
    findLoopBoundsOut res resFilled k =
      .error (.crash "findLoopBounds: unbound induction variable") := by
  rw [findLoopBoundsOut]
  rw [List.get?_eq_getElem?] at hget
  rw [List.get?_eq_getElem?, hget]
  simp

/-- C3: the inferred inclusive bound of loop iterator k is d − 1 where d is
the operand dimension at the first loops-to-shapes result position at which k
occurs as an AffineDimExpr; if every operand has rank 0 the bound list is the
single inclusive bound 0. -/
theorem C3_find_loop_bounds (st : State) (g : GenericOp)
    (bounds viewSizes : List Expr)
    (hvs : genericViewSizes st g = .ok viewSizes)
    (h : findLoopBounds st g = .ok bounds) :
    ((g.inputs ++ g.outputs).all (fun o => o.ty.rank == 0) = true →
      bounds = [IndexC 0]) ∧
    (viewSizes ≠ [] → ∀ k, k < g.loopsToShapesMap.numDims →
      ∃ p, g.loopsToShapesMap.results.enum.find?
          (fun q => q.2 == AffineExpr.dim k) = some p ∧
        ∃ v, viewSizes.get? p.1 = some v ∧
          bounds.get? k = some (v.ofs (-1))) := by
  constructor
  · intro hall
    have hnil : genericViewSizes st g = .ok [] :=
      viewSizes_rank0 st (g.inputs ++ g.outputs) [] hall
    obtain rfl : [] = viewSizes := Except.ok.inj (hnil.symm.trans hvs)
    rw [findLoopBounds, hvs] at h
    simp only [EncM_bind_ok, List.isEmpty_nil, ite_true, EncM_pure_eq,
      reduceIte] at h
    exact (Except.ok.inj h).symm
  · intro hne k hk
    rw [findLoopBounds, hvs] at h
    simp only [EncM_bind_ok] at h
    rw [if_neg (by simpa [List.isEmpty_iff] using hne)] at h
    cases hfold : (g.loopsToShapesMap.results.enum.foldlM
        (findLoopBoundsStep viewSizes)
        ([], List.replicate g.loopsToShapesMap.numDims (-1))) with
    | error e => rw [hfold] at h; simp at h
    | ok rf =>
      obtain ⟨res, resFilled⟩ := rf
      rw [hfold] at h
      simp only [EncM_bind_ok] at h
      have hmono := findLoopBoundsFold_mono viewSizes _ _ _ hfold
      have hrlen : resFilled.length = g.loopsToShapesMap.numDims := by
        simpa using hmono.2.1
      have hk2 : k < resFilled.length := by rw [hrlen]; exact hk
      have hinv := findLoopBoundsFold_first viewSizes _ _ _ hfold k
        (by simpa using hk)
        (by simp [List.getD_eq_getElem?_getD, List.getElem?_replicate, hk])
      have hrange : (List.range g.loopsToShapesMap.numDims).get? k = some k := by
        rw [List.get?_eq_getElem?]
        exact List.getElem?_range hk
      cases hfind : g.loopsToShapesMap.results.enum.find?
          (fun q => q.2 == AffineExpr.dim k) with
      | none =>
        exfalso
        rw [hfind] at hinv
        obtain ⟨b, hb, _⟩ := mapM_ok_get _ _ _ h k k hrange
        have hget : resFilled.get? k = some (-1) := by
          rw [List.get?_eq_getElem?, List.getElem?_eq_getElem hk2,
            ← List.getD_eq_getElem resFilled (-1) hk2]
          rw [hinv]
        rw [findLoopBoundsOut_unfilled res resFilled k hget] at hb
        simp at hb
      | some p =>
        rw [hfind] at hinv
        obtain ⟨v, hv, i, hgd, hres⟩ := hinv
        obtain ⟨b, hb, hout⟩ := mapM_ok_get _ _ _ h k k hrange
        have hget : resFilled.get? k = some (Int.ofNat i) := by
          rw [List.get?_eq_getElem?, List.getElem?_eq_getElem hk2,
            ← List.getD_eq_getElem resFilled (-1) hk2]
          rw [hgd]
        have hb2 := findLoopBoundsOut_some res resFilled i k (v.ofs (-1))
          hget hres
        have hbe : b = v.ofs (-1) := Except.ok.inj (hb.symm.trans hb2)
        exact ⟨p, rfl, v, hv, by rw [hout, hbe]⟩

/-- Witness for C3 at a concrete generic op. -/
theorem C3_find_loop_bounds_witness :
    genericViewSizes exGenSt exGenPar = .ok [IndexC 2, IndexC 2] ∧
    findLoopBounds exGenSt exGenPar = .ok [(IndexC 2).ofs (-1)] ∧
    ∃ p, exGenPar.loopsToShapesMap.results.enum.find?
        (fun q => q.2 == AffineExpr.dim 0) = some p ∧
      ∃ v, [IndexC 2, IndexC 2].get? p.1 = some v ∧
        [(IndexC 2).ofs (-1)].get? 0 = some (v.ofs (-1)) := by
  refine ⟨rfl, rfl, ?_⟩
  have h := C3_find_loop_bounds exGenSt exGenPar [(IndexC 2).ofs (-1)]
    [IndexC 2, IndexC 2] rfl rfl
  exact h.2 (by simp) 0 (by decide)

/-!
Frame and characterization lemmas for the generic-op encoder.
-/

theorem isOpWellDefined_congr {s1 s2 : State} (op : Nat)
    (h : s1.wdp = s2.wdp) :
    s1.isOpWellDefined op = s2.isOpWellDefined op := by
  simp [State.isOpWellDefined, h]

theorem isOpWellDefined_notin (s : State) (op : Nat)
    (h : ∀ q ∈ s.wdp, q.1 ≠ some op) :
    s.isOpWellDefined op = Expr.boolE true := by
  have hf : s.wdp.filter (fun p => p.1 == some op) = [] := by
    rw [List.filter_eq_nil]
    intro q hq
    simp only [beq_iff_eq]
    exact h q hq
  simp [State.isOpWellDefined, hf]

theorem addRegTypedM_frame (st : State) (id : Nat) (e : Expr) (ty : MLIRTy)
    (st2 : State) (h : addRegTypedM st id e ty = .ok st2) :
    st2.wdp = st.wdp ∧ st2.scopes = st.scopes ∧ st2.fresh = st.fresh ∧
      st2.mem = st.mem := by
  cases ty <;> simp only [addRegTypedM, EncM_pure_eq] at h <;>
    first
      | (cases h; simp [State.addReg])
      | simp at h

/-- Encoding a scalar body op touches only the register file. -/
theorem encodeBodyOp_scalar_frame (st : State) (bop : BodyOp) (emw : Bool)
    (st2 : State) (hs : scalarBodyOp bop = true)
    (h : encodeBodyOp st bop emw = .ok st2) :
    st2.wdp = st.wdp ∧ st2.scopes = st.scopes ∧ st2.fresh = st.fresh ∧
      st2.mem = st.mem := by
  obtain ⟨oid, k⟩ := bop
  cases k with
  | addf res a b =>
    simp only [scalarBodyOp] at hs
    simp only [encodeBodyOp, encodeBinaryOp, hs, if_true] at h
    cases hga : st.getFloat a.id with
    | error e => rw [hga] at h; simp at h
    | ok fa =>
      rw [hga] at h
      cases hgb : st.getFloat b.id with
      | error e => rw [hgb] at h; simp at h
      | ok fb =>
        rw [hgb] at h
        simp only [EncM_bind_ok, EncM_pure_eq, Except.ok.injEq] at h
        subst h
        simp [State.addReg]
  | mulf res a b =>
    simp only [scalarBodyOp] at hs
    simp only [encodeBodyOp, encodeBinaryOp, hs, if_true] at h
    cases hga : st.getFloat a.id with
    | error e => rw [hga] at h; simp at h
    | ok fa =>
      rw [hga] at h
      cases hgb : st.getFloat b.id with
      | error e => rw [hgb] at h; simp at h
      | ok fb =>
        rw [hgb] at h
        simp only [EncM_bind_ok, EncM_pure_eq, Except.ok.injEq] at h
        subst h
        simp [State.addReg]
  | addi res a b isIdx =>
    simp only [encodeBodyOp] at h
    cases hga : st.getExpr a with
    | error e => rw [hga] at h; simp at h
    | ok ea =>
      rw [hga] at h
      cases hgb : st.getExpr b with
      | error e => rw [hgb] at h; simp at h
      | ok eb =>
        rw [hgb] at h
        simp only [EncM_bind_ok, EncM_pure_eq, Except.ok.injEq] at h
        subst h
        simp [State.addReg]
  | linalgYield args => simp [encodeBodyOp] at h
  | tensorYield a => simp [encodeBodyOp] at h

/-- The parallel loop-body encoder over scalar-only ops: the state frame is
preserved apart from the registers, and the accumulated welldef is the
conjunction of each encoded op's recorded well-definedness (read in the final
state, whose conjunct list all intermediate states share). -/
theorem encodeBlockAux_parallel_frame (emw : Bool) :
    ∀ (ops : List BodyOp) (idx : Nat) (st : State) (acc : Expr)
      (st2 : State) (acc2 : Expr),
    (∀ op ∈ ops, scalarBodyOp op = true) →
    encodeBlockAux emw parallelCheckHook bodyWdCallback st acc ops idx =
      .ok (st2, acc2) →
    st2.wdp = st.wdp ∧ st2.scopes = st.scopes ∧ st2.fresh = st.fresh ∧
      st2.mem = st.mem ∧
      acc2 = (nonYieldOps ops).foldl
        (fun a op => Expr.andE a (st2.isOpWellDefined op.opId)) acc
  | [], idx, st, acc, st2, acc2, _, h => by
    simp only [encodeBlockAux, EncM_pure_eq, Except.ok.injEq,
      Prod.mk.injEq] at h
    obtain ⟨h1, h2⟩ := h
    subst h1; subst h2
    simp [nonYieldOps]
  | op :: rest, idx, st, acc, st2, acc2, hall, h => by
    obtain ⟨oid, k⟩ := op
    have hsc : scalarBodyOp ⟨oid, k⟩ = true := hall _ (List.mem_cons_self _ _)
    have hrest : ∀ o ∈ rest, scalarBodyOp o = true :=
      fun o ho => hall o (List.mem_cons_of_mem _ ho)
    cases k with
    | linalgYield args =>
      simp only [encodeBlockAux, parallelCheckHook] at h
      by_cases hlen : args.length = 0
      · rw [if_pos hlen] at h
        simp at h
      · rw [if_neg hlen] at h
        simp only [EncM_pure_eq, EncM_bind_ok, if_true] at h
        have ih := encodeBlockAux_parallel_frame emw rest (idx + 1) st acc
          st2 acc2 hrest h
        simpa [nonYieldOps] using ih
    | tensorYield a =>
      simp only [encodeBlockAux, parallelCheckHook, EncM_pure_eq,
        EncM_bind_ok, if_true] at h
      have ih := encodeBlockAux_parallel_frame emw rest (idx + 1) st acc
        st2 acc2 hrest h
      simpa [nonYieldOps] using ih
    | addf res a b =>
      simp only [encodeBlockAux, parallelCheckHook, EncM_pure_eq,
        EncM_bind_ok, Bool.false_eq_true, if_false] at h
      cases hbo : encodeBodyOp st ⟨oid, .addf res a b⟩ emw with
      | error e => rw [hbo] at h; simp at h
      | ok st3 =>
        rw [hbo] at h
        simp only [EncM_bind_ok] at h
        have hfr := encodeBodyOp_scalar_frame st _ emw st3 hsc hbo
        have ih := encodeBlockAux_parallel_frame emw rest (idx + 1) st3
          (bodyWdCallback st3 ⟨oid, .addf res a b⟩ acc) st2 acc2 hrest h
        obtain ⟨iw, isc, ifr, imem, iacc⟩ := ih
        obtain ⟨fw, fsc, ffr, fmem⟩ := hfr
        refine ⟨iw.trans fw, isc.trans fsc, ifr.trans ffr,
          imem.trans fmem, ?_⟩
        have hwd : st3.isOpWellDefined oid = st2.isOpWellDefined oid :=
          isOpWellDefined_congr oid iw.symm
        rw [iacc]
        simp [nonYieldOps, List.filter_cons, bodyWdCallback, hwd]
    | mulf res a b =>
      simp only [encodeBlockAux, parallelCheckHook, EncM_pure_eq,
        EncM_bind_ok, Bool.false_eq_true, if_false] at h
      cases hbo : encodeBodyOp st ⟨oid, .mulf res a b⟩ emw with
      | error e => rw [hbo] at h; simp at h
      | ok st3 =>
        rw [hbo] at h
        simp only [EncM_bind_ok] at h
        have hfr := encodeBodyOp_scalar_frame st _ emw st3 hsc hbo
        have ih := encodeBlockAux_parallel_frame emw rest (idx + 1) st3
          (bodyWdCallback st3 ⟨oid, .mulf res a b⟩ acc) st2 acc2 hrest h
        obtain ⟨iw, isc, ifr, imem, iacc⟩ := ih
        obtain ⟨fw, fsc, ffr, fmem⟩ := hfr
        refine ⟨iw.trans fw, isc.trans fsc, ifr.trans ffr,
          imem.trans fmem, ?_⟩
        have hwd : st3.isOpWellDefined oid = st2.isOpWellDefined oid :=
          isOpWellDefined_congr oid iw.symm
        rw [iacc]
        simp [nonYieldOps, List.filter_cons, bodyWdCallback, hwd]
    | addi res a b isIdx =>
      simp only [encodeBlockAux, parallelCheckHook, EncM_pure_eq,
        EncM_bind_ok, Bool.false_eq_true, if_false] at h
      cases hbo : encodeBodyOp st ⟨oid, .addi res a b isIdx⟩ emw with
      | error e => rw [hbo] at h; simp at h
      | ok st3 =>
        rw [hbo] at h
        simp only [EncM_bind_ok] at h
        have hfr := encodeBodyOp_scalar_frame st _ emw st3 hsc hbo
        have ih := encodeBlockAux_parallel_frame emw rest (idx + 1) st3
          (bodyWdCallback st3 ⟨oid, .addi res a b isIdx⟩ acc) st2 acc2 hrest h
        obtain ⟨iw, isc, ifr, imem, iacc⟩ := ih
        obtain ⟨fw, fsc, ffr, fmem⟩ := hfr
        refine ⟨iw.trans fw, isc.trans fsc, ifr.trans ffr,
          imem.trans fmem, ?_⟩
        have hwd : st3.isOpWellDefined oid = st2.isOpWellDefined oid :=
          isOpWellDefined_congr oid iw.symm
        rw [iacc]
        simp [nonYieldOps, List.filter_cons, bodyWdCallback, hwd]

theorem mem_enum_snd {α : Type} (l : List α) (p : Nat × α) (h : p ∈ l.enum) :
    p.2 ∈ l := by
  rw [← List.enum_map_snd l]
  exact List.mem_map_of_mem _ h

theorem not_memref_of_tensor {t : MLIRTy} (h : t.isTensorTy = true) :
    ¬ t.isMemRefTy = true := by
  cases t <;> simp [MLIRTy.isTensorTy, MLIRTy.isMemRefTy] at h ⊢

/-- Under tensor semantics no operand is a memref. -/
theorem tensorSem_no_memref (g : GenericOp)
    (hts : g.hasTensorSemantics = true) :
    ∀ p ∈ (g.inputs ++ g.outputs).enum, ¬ p.2.ty.isMemRefTy = true := by
  intro p hp
  have hmem : p.2 ∈ g.inputs ++ g.outputs := mem_enum_snd _ p hp
  simp only [GenericOp.hasTensorSemantics, Bool.and_eq_true,
    List.all_eq_true] at hts
  rcases List.mem_append.1 hmem with hin | hout
  · have := hts.1 p.2 hin
    simpa using this
  · have := hts.2 p.2 hout
    exact not_memref_of_tensor (by simpa using this)

/-- A generic op with at least one output and tensor semantics does not have
buffer semantics. -/
theorem bufferSem_false_of_tensorSem (g : GenericOp)
    (hts : g.hasTensorSemantics = true) (houts : g.outputs ≠ []) :
    g.hasBufferSemantics = false := by
  cases ho : g.outputs with
  | nil => exact absurd ho houts
  | cons o os =>
    by_contra hb
    rw [Bool.not_eq_false] at hb
    simp only [GenericOp.hasTensorSemantics, Bool.and_eq_true,
      List.all_eq_true] at hts
    simp only [GenericOp.hasBufferSemantics, Bool.and_eq_true,
      List.all_eq_true] at hb
    have h1 := hts.2 o (by rw [ho]; exact List.mem_cons_self _ _)
    have h2 := hb.2 o (by rw [ho]; exact List.mem_cons_self _ _)
    cases hty : o.ty <;>
      simp [hty, MLIRTy.isTensorTy, MLIRTy.isMemRefTy] at h1 h2

/-- One non-memref operand of the input-state initialization changes neither
the welldef accumulator nor the state frame beyond the registers. -/
theorem initInputStep_frame (g : GenericOp) (ivs : List Expr)
    (acc : State × Expr) (p : Nat × Operand) (acc2 : State × Expr)
    (hnm : ¬ p.2.ty.isMemRefTy = true)
    (h : initInputStep g ivs acc p = .ok acc2) :
    acc2.2 = acc.2 ∧ acc2.1.wdp = acc.1.wdp ∧ acc2.1.scopes = acc.1.scopes ∧
      acc2.1.fresh = acc.1.fresh ∧ acc2.1.mem = acc.1.mem := by
  obtain ⟨ist, iwd⟩ := acc
  obtain ⟨ai, ⟨opid, opty⟩⟩ := p
  simp only [initInputStep] at h
  cases hga : g.block.argIds.get? ai with
  | none => rw [hga] at h; simp at h
  | some argId =>
    rw [hga] at h
    simp only [EncM_pure_eq, EncM_bind_ok] at h
    cases opty with
    | index => simp at h
    | int w => simp at h
    | f32 =>
      cases hgf : ist.getFloat opid with
      | error e => rw [hgf] at h; simp at h
      | ok f =>
        rw [hgf] at h
        simp only [EncM_bind_ok, EncM_pure_eq, Except.ok.injEq] at h
        subst h
        simp [State.addReg]
    | f64 =>
      cases hgf : ist.getFloat opid with
      | error e => rw [hgf] at h; simp at h
      | ok f =>
        rw [hgf] at h
        simp only [EncM_bind_ok, EncM_pure_eq, Except.ok.injEq] at h
        subst h
        simp [State.addReg]
    | f16 =>
      cases hgf : ist.getFloat opid with
      | error e => rw [hgf] at h; simp at h
      | ok f =>
        rw [hgf] at h
        simp only [EncM_bind_ok, EncM_pure_eq, Except.ok.injEq] at h
        subst h
        simp [State.addReg]
    | memrefT shp ety il => simp [MLIRTy.isMemRefTy] at hnm
    | tensorT shp ety =>
      cases hgt : ist.getTensor opid with
      | error e => rw [hgt] at h; simp at h
      | ok t =>
        rw [hgt] at h
        simp only [EncM_bind_ok] at h
        by_cases hre : (g.indexingMaps.getD ai ⟨0, 0, []⟩).results.length = 0
        · rw [if_pos hre] at h
          cases har : addRegTypedM ist argId (t.get [IndexZero]).1 ety with
          | error e => rw [har] at h; simp at h
          | ok st3 =>
            rw [har] at h
            simp only [EncM_bind_ok, EncM_pure_eq, Except.ok.injEq] at h
            subst h
            have := addRegTypedM_frame ist argId (t.get [IndexZero]).1 ety
              st3 har
            exact ⟨rfl, this.1, this.2.1, this.2.2.1, this.2.2.2⟩
        · rw [if_neg hre] at h
          rw [EncM_bind_eq_ok] at h
          obtain ⟨aes, hmm, h⟩ := h
          cases har : addRegTypedM ist argId (t.get aes).1 ety with
          | error e => rw [har] at h; simp at h
          | ok st3 =>
            rw [har] at h
            simp only [EncM_bind_ok, EncM_pure_eq, Except.ok.injEq] at h
            subst h
            have := addRegTypedM_frame ist argId (t.get aes).1 ety st3 har
            exact ⟨rfl, this.1, this.2.1, this.2.2.1, this.2.2.2⟩

theorem initInputFold_frame (g : GenericOp) (ivs : List Expr) :
    ∀ (l : List (Nat × Operand)) (acc acc2 : State × Expr),
    (∀ p ∈ l, ¬ p.2.ty.isMemRefTy = true) →
    l.foldlM (initInputStep g ivs) acc = .ok acc2 →
    acc2.2 = acc.2 ∧ acc2.1.wdp = acc.1.wdp ∧ acc2.1.scopes = acc.1.scopes ∧
      acc2.1.fresh = acc.1.fresh ∧ acc2.1.mem = acc.1.mem
  | [], acc, acc2, _, h => by
    simp only [List.foldlM, EncM_pure_eq, Except.ok.injEq] at h
    subst h
    exact ⟨rfl, rfl, rfl, rfl, rfl⟩
  | p :: rest, acc, acc2, hall, h => by
    simp only [List.foldlM] at h
    cases hs : initInputStep g ivs acc p with
    | error e => rw [hs] at h; simp at h
    | ok acc1 =>
      rw [hs] at h
      simp only [EncM_bind_ok] at h
      have h1 := initInputStep_frame g ivs acc p acc1
        (hall p (List.mem_cons_self _ _)) hs
      have h2 := initInputFold_frame g ivs rest acc1 acc2
        (fun q hq => hall q (List.mem_cons_of_mem _ hq)) h
      exact ⟨h2.1.trans h1.1, h2.2.1.trans h1.2.1, h2.2.2.1.trans h1.2.2.1,
        h2.2.2.2.1.trans h1.2.2.2.1, h2.2.2.2.2.trans h1.2.2.2.2⟩

/-- Under tensor semantics, initializing the loop-body input state leaves the
welldef accumulator and the whole state frame but the registers unchanged. -/
theorem initInput_tensorSem_frame (st : State) (g : GenericOp) (wd : Expr)
    (b : Bool) (st2 : State) (wd2 : Expr)
    (hts : g.hasTensorSemantics = true)
    (h : initInputStateForLoopBody st g wd b = .ok (st2, wd2)) :
    wd2 = wd ∧ st2.wdp = st.wdp ∧ st2.scopes = st.scopes ∧
      st2.fresh = st.fresh ∧ st2.mem = st.mem := by
  simp only [initInputStateForLoopBody] at h
  cases hsc : st.scopes with
  | nil => rw [hsc] at h; simp at h
  | cons scope rest =>
    rw [hsc] at h
    simp only [EncM_pure_eq, EncM_bind_ok] at h
    by_cases hlen : g.inputs.length + g.outputs.length = g.indexingMaps.length
    · rw [if_neg (not_not_intro hlen)] at h
      have hfr := initInputFold_frame g scope.indVars
        ((g.inputs ++ g.outputs).enum) (st, wd) (st2, wd2)
        (tensorSem_no_memref g hts) h
      exact ⟨hfr.1, hfr.2.1, hfr.2.2.1.trans hsc, hfr.2.2.2.1, hfr.2.2.2.2⟩
    · rw [if_pos hlen] at h
      exact absurd h (by simp)

/-- The new register bindings of the tensor-semantics result registration, in
the order they end up in the register file. -/
def resultBindings (g : GenericOp) (l : List (Nat × Tensor)) :
    List (Nat × ValueTy) :=
  (l.map (fun p => (g.resultIds.getD p.1 0, ValueTy.tensorV p.2))).reverse

theorem registerResultFold (g : GenericOp) :
    ∀ (l : List (Nat × Tensor)) (st st2 : State),
    l.foldlM (registerResultStep g) st = .ok st2 →
    st2 = { st with regs := resultBindings g l ++ st.regs } ∧
      ∀ p ∈ l, p.1 < g.resultIds.length
  | [], st, st2, h => by
    simp only [List.foldlM, EncM_pure_eq, Except.ok.injEq] at h
    subst h
    simp [resultBindings]
  | p :: rest, st, st2, h => by
    simp only [List.foldlM] at h
    cases hr : g.resultIds.get? p.1 with
    | none =>
      simp only [registerResultStep, hr, EncM_bind_error] at h
      simp at h
    | some rid =>
      simp only [registerResultStep, hr, EncM_pure_eq, EncM_bind_ok] at h
      have ih := registerResultFold g rest (st.addReg rid (.tensorV p.2)) st2 h
      refine ⟨?_, ?_⟩
      · rw [ih.1]
        have hgd : g.resultIds.getD p.1 0 = rid := by
          simp [List.getD_eq_getElem?_getD, ← List.get?_eq_getElem?, hr]
        simp only [State.addReg, resultBindings, List.map_cons,
          List.reverse_cons, hgd]
        congr 1
        simp [List.append_assoc]
      · intro q hq
        rcases List.mem_cons.1 hq with rfl | hq
        · obtain ⟨hlt, _⟩ := List.get?_eq_some.mp hr
          exact hlt
        · exact ih.2 q hq

theorem lookup_append_not_key (l r : List (Nat × ValueTy)) (id : Nat)
    (h : ∀ q ∈ l, q.1 ≠ id) :
    (l ++ r).lookup id = r.lookup id := by
  induction l with
  | nil => rfl
  | cons q qs ih =>
    obtain ⟨k, v⟩ := q
    have hk : k ≠ id := h (k, v) (List.mem_cons_self _ _)
    have hbeq : (id == k) = false := beq_eq_false_iff_ne.mpr (Ne.symm hk)
    simp only [List.cons_append, List.lookup, hbeq]
    exact ih (fun q hq => h q (List.mem_cons_of_mem _ hq))

/-- encodeUBForTensorShapeMatch only appends well-definedness conjuncts: the
rest of the state is preserved. -/
theorem shapeMatch_frame (st : State) (g : GenericOp) (bounds : List Expr)
    (st2 : State) (h : encodeUBForTensorShapeMatch st g bounds = .ok st2) :
    st2.regs = st.regs ∧ st2.scopes = st.scopes ∧ st2.fresh = st.fresh ∧
      st2.mem = st.mem := by
  simp only [encodeUBForTensorShapeMatch] at h
  rw [EncM_bind_eq_ok] at h
  obtain ⟨vs, hvs, h⟩ := h
  have hc := shapeMatchFold g.opId bounds vs _ _ _ h
  rw [hc]
  exact ⟨rfl, rfl, rfl, rfl⟩

/-- Every conjunct recorded by the shape-match walk carries the generic op's
provenance. -/
theorem shapeMatchConjuncts_tag (opId : Nat) (bounds viewSizes : List Expr)
    (l : List (Nat × AffineExpr)) :
    ∀ q ∈ shapeMatchConjuncts opId bounds viewSizes l, q.1 = some opId := by
  intro q hq
  simp only [shapeMatchConjuncts, List.mem_map] at hq
  obtain ⟨p, _, rfl⟩ := hq
  rfl

/-- The conclusion of the tensor-semantics result registration: the register
file is extended by tensor bindings for result ids only. -/
theorem generic_regs_conclusion (g : GenericOp) (l : List (Nat × Tensor))
    (s0 st2 : State) (baseRegs : List (Nat × ValueTy))
    (h : l.foldlM (registerResultStep g) s0 = .ok st2)
    (hbase : s0.regs = baseRegs) :
    ∃ newBindings : List (Nat × ValueTy),
      st2.regs = newBindings ++ baseRegs ∧
      (∀ q ∈ newBindings, q.1 ∈ g.resultIds ∧ ∃ t, q.2 = ValueTy.tensorV t) ∧
      ∀ id, id ∉ g.resultIds → st2.regs.lookup id = baseRegs.lookup id := by
  have hreg := registerResultFold g l s0 st2 h
  refine ⟨resultBindings g l, ?_, ?_, ?_⟩
  · rw [hreg.1, hbase]
  · intro q hq
    simp only [resultBindings, List.mem_reverse, List.mem_map] at hq
    obtain ⟨p, hp, rfl⟩ := hq
    have hlt := hreg.2 p hp
    refine ⟨?_, p.2, rfl⟩
    rw [List.getD_eq_getElem?_getD, List.getElem?_eq_getElem hlt]
    simp only [Option.getD_some]
    exact List.getElem_mem hlt
  · intro id hid
    have hkeys : ∀ q ∈ resultBindings g l, q.1 ≠ id := by
      intro q hq
      simp only [resultBindings, List.mem_reverse, List.mem_map] at hq
      obtain ⟨p, hp, rfl⟩ := hq
      have hlt := hreg.2 p hp
      intro heq
      apply hid
      rw [← heq, List.getD_eq_getElem?_getD, List.getElem?_eq_getElem hlt]
      simp only [Option.getD_some]
      exact List.getElem_mem hlt
    rw [hreg.1]
    simp only [hbase]
    exact lookup_append_not_key _ _ id hkeys

/-- C9: for a linalg.generic with tensor semantics (and at least one output),
encoding extends the register file only with tensor bindings for the op's
result values; in particular the binding of every other register — the output
(init) tensor operands included — is unchanged. -/
theorem C9_generic_output_regs_frame (st : State) (g : GenericOp)
    (emw : Bool) (st2 : State)
    (hts : g.hasTensorSemantics = true)
    (houts : g.outputs ≠ [])
    (h : encodeOp_Generic st g emw = .ok st2) :
    ∃ newBindings : List (Nat × ValueTy),
      st2.regs = newBindings ++ st.regs ∧
      (∀ q ∈ newBindings, q.1 ∈ g.resultIds ∧ ∃ t, q.2 = ValueTy.tensorV t) ∧
      ∀ id, id ∉ g.resultIds → st2.regs.lookup id = st.regs.lookup id := by
  have hbs : g.hasBufferSemantics = false :=
    bufferSem_false_of_tensorSem g hts houts
  simp only [encodeOp_Generic] at h
  rw [if_neg (not_not_intro (Or.inl hts))] at h
  rw [if_neg (by simp [hbs])] at h
  cases harg : g.block.argTys.all MLIRTy.isSignlessIntOrFloat with
  | false => rw [harg] at h; rw [if_pos (by simp)] at h; exact absurd h (by simp)
  | true =>
    rw [harg] at h
    rw [if_neg (by simp)] at h
    cases hit : g.iteratorTypes.any (fun it => it == IterTy.unknown) with
    | true => rw [hit] at h; rw [if_pos rfl] at h; exact absurd h (by simp)
    | false =>
      rw [hit] at h
      rw [if_neg (by simp)] at h
      simp only [EncM_pure_eq, EncM_bind_ok] at h
      rw [EncM_bind_eq_ok] at h
      obtain ⟨bounds, hfb, h⟩ := h
      rw [EncM_bind_eq_ok] at h
      obtain ⟨stMid, hsm, h⟩ := h
      have hmidregs := (shapeMatch_frame st g bounds stMid hsm).1
      simp only [State.freshVars] at h
      cases hlast2 : g.indexingMaps.getLast? with
      | none => rw [hlast2] at h; exact absurd h (by simp)
      | some om =>
        rw [hlast2] at h
        simp only [EncM_pure_eq, EncM_bind_ok] at h
        cases hpm : om.isPermutation with
        | true =>
          simp only [hpm, eq_self_iff_true, if_true] at h
          simp only [EncM_bind_eq_ok] at h
          obtain ⟨⟨newstI, wdI⟩, hini, ⟨tvec, newst2, wdB⟩, hpar, h⟩ := h
          split at h
          · simp at h
          · exact generic_regs_conclusion g tvec.enum _ st2 st.regs h
              (by simp [State.wellDefined, hmidregs])
        | false =>
          simp only [hpm, Bool.false_eq_true, if_false] at h
          simp only [EncM_bind_eq_ok] at h
          obtain ⟨⟨newstI, wdI⟩, hini, h⟩ := h
          by_cases hlen1 : 1 < g.outputs.length
          · rw [if_pos hlen1] at h
            simp at h
          · rw [if_neg hlen1] at h
            cases hout : g.outputs.head? with
            | none => rw [hout] at h; simp at h
            | some o =>
              rw [hout] at h
              simp only [EncM_bind_eq_ok] at h
              obtain ⟨⟨tres, newst2, wdB⟩, hred, h⟩ := h
              split at h
              · simp at h
              · exact generic_regs_conclusion g ([tres].enum) _ st2
                  st.regs h (by simp [State.wellDefined, hmidregs])

def exGenSt2 : State :=
  (encodeOp_Generic exGenSt exGenPar false).toOption.getD exGenSt

/-- Witness for C9 at a concrete parallel generic op. -/
theorem C9_generic_witness :
    ∃ newBindings : List (Nat × ValueTy),
      exGenSt2.regs = newBindings ++ exGenSt.regs ∧
      (∀ q ∈ newBindings, q.1 ∈ exGenPar.resultIds ∧
        ∃ t, q.2 = ValueTy.tensorV t) ∧
      ∀ id, id ∉ exGenPar.resultIds →
        exGenSt2.regs.lookup id = exGenSt.regs.lookup id :=
  C9_generic_output_regs_frame exGenSt exGenPar false exGenSt2 (by decide)
    (by decide) (by rfl)

theorem nonYieldOps_subset (ops : List BodyOp) {op : BodyOp}
    (h : op ∈ nonYieldOps ops) : op ∈ ops :=
  (List.mem_filter.1 h).1

theorem foldl_wd_congr (s : State) :
    ∀ (l : List BodyOp) (init : Expr),
    (∀ op ∈ l, s.isOpWellDefined op.opId = Expr.boolE true) →
    l.foldl (fun a op => Expr.andE a (s.isOpWellDefined op.opId)) init =
      l.foldl (fun a _ => Expr.andE a (Expr.boolE true)) init
  | [], _, _ => rfl
  | op :: rest, init, hall => by
    simp only [List.foldl_cons]
    rw [hall op (List.mem_cons_self _ _)]
    exact foldl_wd_congr s rest _
      (fun o ho => hall o (List.mem_cons_of_mem _ ho))

/-- The parallel loop-body encoder returns the body welldef accumulated over
the encoded (non-yield) ops and preserves the conjunct list and the
fresh-symbol counter. -/
theorem encodeParallel_welldef (newst : State) (block : Block) (om : AffineMap)
    (wd0 : Expr) (tvec : List Tensor) (newst2 : State) (wdOut : Expr)
    (hscalar : ∀ op ∈ block.ops, scalarBodyOp op = true)
    (h : encodeParallelLoopBodyAndOutputs newst block om wd0 none =
      .ok (tvec, newst2, wdOut)) :
    newst2.wdp = newst.wdp ∧ newst2.fresh = newst.fresh ∧
      wdOut = (nonYieldOps block.ops).foldl
        (fun a op => Expr.andE a (newst2.isOpWellDefined op.opId)) wd0 := by
  simp only [encodeParallelLoopBodyAndOutputs] at h
  rw [EncM_bind_eq_ok] at h
  obtain ⟨⟨stB, wdB0⟩, hblk, h⟩ := h
  have hfr := encodeBlockAux_parallel_frame false block.ops 0 newst wd0 stB
    wdB0 hscalar hblk
  cases hsc : stB.scopes with
  | nil =>
    simp only [hsc] at h
    simp at h
  | cons s rest =>
    simp only [hsc, EncM_pure_eq, EncM_bind_ok] at h
    rw [EncM_bind_eq_ok] at h
    obtain ⟨tv, hmap, h⟩ := h
    simp only [EncM_pure_eq, Except.ok.injEq, Prod.mk.injEq] at h
    obtain ⟨h1, h2, h3⟩ := h
    subst h2
    subst h3
    exact ⟨hfr.1, hfr.2.2.1, hfr.2.2.2.2⟩

/-- One axis of the loop in-bounds antecedent: when the bound evaluates to a
bit-vector b with b + 1 not wrapping, iter ult (b + 1) holds iff iter ≤ b. -/
theorem genericInBoundsAxisEval (env : Env) (base : Nat) (bounds : List Expr)
    (bv : Nat → Nat) (k n : Nat) (hk : k < n)
    (hb : (bounds.getD k (IndexC 0)).eval env = some (.vbv IndexBITS (bv k)))
    (hnof : bv k + 1 < 2 ^ IndexBITS) :
    ((Expr.ult ((boundIndexVars base n).getD k (IndexC 0))
        (Expr.add (bounds.getD k (IndexC 0)) (Expr.bv IndexBITS 1))).eval env =
      some (.vb true)) ↔
      env.iv (base + k) % 2 ^ IndexBITS ≤ bv k := by
  rw [boundIndexVars_getD base n k (IndexC 0) hk]
  have h1 : (1 : Nat) % 2 ^ IndexBITS = 1 := by norm_num [IndexBITS]
  have h2 : (bv k + 1) % 2 ^ IndexBITS = bv k + 1 := Nat.mod_eq_of_lt hnof
  rw [List.getD_eq_getElem?_getD] at hb
  simp [indexVar, Expr.eval, hb, h1, h2, Nat.lt_succ_iff]

/-- The loop in-bounds antecedent of the generic encoder holds in an
environment exactly when every iterator value is at most its inclusive
bound. -/
theorem genericInBounds_eval (env : Env) (base : Nat) (bounds : List Expr)
    (bv : Nat → Nat)
    (hb : ∀ k < bounds.length, (bounds.getD k (IndexC 0)).eval env =
      some (.vbv IndexBITS (bv k)))
    (hnof : ∀ k < bounds.length, bv k + 1 < 2 ^ IndexBITS) :
    ((genericInBounds (boundIndexVars base bounds.length) bounds).eval env =
        some (.vb true)) ↔
      ∀ k < bounds.length, env.iv (base + k) % 2 ^ IndexBITS ≤ bv k := by
  have hlen : (boundIndexVars base bounds.length).length = bounds.length := by
    simp [boundIndexVars]
  rw [genericInBounds, hlen]
  rw [evalAndFoldl env (fun i =>
    Expr.ult ((boundIndexVars base bounds.length).getD i (IndexC 0))
      (Expr.add (bounds.getD i (IndexC 0)) (Expr.bv IndexBITS 1)))]
  simp only [List.mem_range]
  constructor
  · rintro ⟨_, h2⟩ k hk
    exact (genericInBoundsAxisEval env base bounds bv k bounds.length hk
      (hb k hk) (hnof k hk)).1 (h2 k hk)
  · intro hall
    refine ⟨by simp [Expr.eval], fun k hk => ?_⟩
    exact (genericInBoundsAxisEval env base bounds bv k bounds.length hk
      (hb k hk) (hnof k hk)).2 (hall k hk)

/-- C1: for a linalg.generic whose output indexing map is a permutation (the
parallel case, with tensor semantics and a scalar-only body whose op ids are
fresh), the encoder appends to wellDefinedPred — beyond the shape-match
conjuncts — exactly one obligation with the op's provenance:
∀ iter. inBounds(iter) ⇒ welldef, where welldef is the conjunction of the
well-definedness predicates of every op encoded inside the loop body (each
trivially true for scalar ops), and where the antecedent holds in an
environment exactly when every iterator is at most its inclusive upper
bound. -/
theorem C1_parallel_welldef_forall (st : State) (g : GenericOp) (emw : Bool)
    (st2 : State) (om : AffineMap)
    (hts : g.hasTensorSemantics = true)
    (houts : g.outputs ≠ [])
    (hlast : g.indexingMaps.getLast? = some om)
    (hperm : om.isPermutation = true)
    (hscalar : ∀ op ∈ g.block.ops, scalarBodyOp op = true)
    (hfresh : ∀ op ∈ g.block.ops, op.opId ≠ g.opId ∧
      ∀ q ∈ st.wdp, q.1 ≠ some op.opId)
    (h : encodeOp_Generic st g emw = .ok st2) :
    ∃ bounds stMid,
      findLoopBounds st g = .ok bounds ∧
      encodeUBForTensorShapeMatch st g bounds = .ok stMid ∧
      stMid.fresh = st.fresh ∧
      st2.wdp = stMid.wdp ++
        [(some g.opId,
          Expr.mkForall (boundIndexVars st.fresh bounds.length)
            (Expr.impliesE
              (genericInBounds (boundIndexVars st.fresh bounds.length) bounds)
              (welldefConj g.block.ops)))] ∧
      ∀ (env : Env) (bv : Nat → Nat),
        (∀ k < bounds.length, (bounds.getD k (IndexC 0)).eval env =
          some (.vbv IndexBITS (bv k))) →
        (∀ k < bounds.length, bv k + 1 < 2 ^ IndexBITS) →
        (((genericInBounds (boundIndexVars st.fresh bounds.length)
            bounds).eval env = some (.vb true)) ↔
          ∀ k < bounds.length,
            env.iv (st.fresh + k) % 2 ^ IndexBITS ≤ bv k) := by
  have hbs : g.hasBufferSemantics = false :=
    bufferSem_false_of_tensorSem g hts houts
  simp only [encodeOp_Generic] at h
  rw [if_neg (not_not_intro (Or.inl hts))] at h
  rw [if_neg (by simp [hbs])] at h
  cases harg : g.block.argTys.all MLIRTy.isSignlessIntOrFloat with
  | false => rw [harg] at h; rw [if_pos (by simp)] at h; exact absurd h (by simp)
  | true =>
    rw [harg] at h
    rw [if_neg (by simp)] at h
    cases hit : g.iteratorTypes.any (fun it => it == IterTy.unknown) with
    | true => rw [hit] at h; rw [if_pos rfl] at h; exact absurd h (by simp)
    | false =>
      rw [hit] at h
      rw [if_neg (by simp)] at h
      simp only [EncM_pure_eq, EncM_bind_ok] at h
      rw [EncM_bind_eq_ok] at h
      obtain ⟨bounds, hfb, h⟩ := h
      rw [EncM_bind_eq_ok] at h
      obtain ⟨stMid, hsm, h⟩ := h
      have hsm2 := hsm
      simp only [encodeUBForTensorShapeMatch] at hsm2
      rw [EncM_bind_eq_ok] at hsm2
      obtain ⟨vs, hvs, hfold⟩ := hsm2
      have hmid := shapeMatchFold g.opId bounds vs _ _ _ hfold
      have hmidwdp : stMid.wdp = st.wdp ++ shapeMatchConjuncts g.opId bounds
          vs g.loopsToShapesMap.results.enum := by rw [hmid]
      have hmidfresh : stMid.fresh = st.fresh := by rw [hmid]
      simp only [State.freshVars] at h
      rw [hlast] at h
      simp only [EncM_pure_eq, EncM_bind_ok] at h
      simp only [hperm, eq_self_iff_true, if_true] at h
      simp only [EncM_bind_eq_ok] at h
      obtain ⟨⟨newstI, wdI⟩, hini, ⟨tvec, newst2, wdB⟩, hpar, h⟩ := h
      have hinif := initInput_tensorSem_frame _ g (Expr.boolE true) true
        newstI wdI hts hini
      have hwdI : wdI = Expr.boolE true := hinif.1
      have hIwdp : newstI.wdp = stMid.wdp := hinif.2.1
      have hparf := encodeParallel_welldef newstI g.block om wdI tvec newst2
        wdB hscalar hpar
      have hBwdp : newst2.wdp = newstI.wdp := hparf.1
      have hwdB : wdB = (nonYieldOps g.block.ops).foldl
          (fun a op => Expr.andE a (newst2.isOpWellDefined op.opId)) wdI :=
        hparf.2.2
      have hopwd : ∀ op ∈ g.block.ops,
          newst2.isOpWellDefined op.opId = Expr.boolE true := by
        intro op hop
        apply isOpWellDefined_notin
        intro q hq
        rw [hBwdp, hIwdp, hmidwdp] at hq
        rcases List.mem_append.1 hq with hq | hq
        · exact (hfresh op hop).2 q hq
        · have htag := shapeMatchConjuncts_tag g.opId bounds vs _ q hq
          rw [htag]
          intro hcon
          exact (hfresh op hop).1 ((Option.some.inj hcon).symm)
      have hwdB2 : wdB = welldefConj g.block.ops := by
        rw [hwdB, hwdI, welldefConj]
        exact foldl_wd_congr newst2 (nonYieldOps g.block.ops) (Expr.boolE true)
          (fun op hop => hopwd op (nonYieldOps_subset g.block.ops hop))
      split at h
      · simp at h
      · have hreg := registerResultFold g tvec.enum _ st2 h
        refine ⟨bounds, stMid, hfb, hsm, hmidfresh, ?_, ?_⟩
        · have hwdp2 : st2.wdp = stMid.wdp ++ [(some g.opId,
              Expr.mkForall (boundIndexVars stMid.fresh bounds.length)
                (Expr.impliesE (genericInBounds
                  (boundIndexVars stMid.fresh bounds.length) bounds) wdB))] := by
            rw [hreg.1]
            simp [State.wellDefined]
          rw [hwdp2, hwdB2, hmidfresh]
        · intro env bv hb hnof
          exact genericInBounds_eval env st.fresh bounds bv hb hnof

/-- Witness for C1 at a concrete parallel generic op. -/
theorem C1_parallel_witness :
    ∃ bounds stMid,
      findLoopBounds exGenSt exGenPar = .ok bounds ∧
      encodeUBForTensorShapeMatch exGenSt exGenPar bounds = .ok stMid ∧
      stMid.fresh = exGenSt.fresh ∧
      exGenSt2.wdp = stMid.wdp ++
        [(some exGenPar.opId,
          Expr.mkForall (boundIndexVars exGenSt.fresh bounds.length)
            (Expr.impliesE
              (genericInBounds (boundIndexVars exGenSt.fresh bounds.length)
                bounds)
              (welldefConj exGenPar.block.ops)))] ∧
      ∀ (env : Env) (bv : Nat → Nat),
        (∀ k < bounds.length, (bounds.getD k (IndexC 0)).eval env =
          some (.vbv IndexBITS (bv k))) →
        (∀ k < bounds.length, bv k + 1 < 2 ^ IndexBITS) →
        (((genericInBounds (boundIndexVars exGenSt.fresh bounds.length)
            bounds).eval env = some (.vb true)) ↔
          ∀ k < bounds.length,
            env.iv (exGenSt.fresh + k) % 2 ^ IndexBITS ≤ bv k) :=
  C1_parallel_welldef_forall exGenSt exGenPar false exGenSt2 ⟨1, 0, [.dim 0]⟩
    (by decide) (by decide) (by rfl) (by decide) (by decide) (by decide)
    (by rfl)

/-- The four accepted terminator shapes of the reduction matcher, following
the claim wording: the last op is yield(y) with y defined by an addf or addi
whose left or right operand is the last block argument (the accumulator). -/
def simpleReductionShape (blk : Block) : Bool :=
  match blk.argIds.getLast?, blk.ops.getLast? with
  | some lastarg, some lastop =>
    (match lastop.kind with
     | .linalgYield [y] =>
       (match defOpOf blk.ops y with
        | some dop =>
          (match dop.kind with
           | .addf _ a b => a.id == lastarg || b.id == lastarg
           | .addi _ a b _ => a == lastarg || b == lastarg
           | _ => false)
        | none => false)
     | _ => false)
  | _, _ => false

/-- A successful reduction-body encoding implies the terminator matches one of
the four accepted shapes. -/
theorem encodeReduction_ok_shape (newst : State) (block : Block)
    (maps : List AffineMap) (outTy : MLIRTy) (wd : Expr)
    (res : Tensor × State × Expr)
    (h : encodeReductionLoopBodyAndOutput newst block maps outTy wd =
      .ok res) :
    simpleReductionShape block = true := by
  simp only [encodeReductionLoopBodyAndOutput] at h
  cases hla : block.argIds.getLast? with
  | none => simp only [hla] at h; simp at h
  | some lastarg =>
    simp only [hla, EncM_pure_eq, EncM_bind_ok] at h
    cases hlo : block.ops.getLast? with
    | none => simp only [hlo] at h; simp at h
    | some lastop =>
      simp only [hlo, EncM_pure_eq, EncM_bind_ok] at h
      obtain ⟨loid, lok⟩ := lastop
      cases lok with
      | addf r a b => simp at h
      | mulf r a b => simp at h
      | addi r a b ii => simp at h
      | tensorYield a => simp at h
      | linalgYield args =>
        cases args with
        | nil => simp at h
        | cons y args2 =>
          cases args2 with
          | cons y2 args3 => simp at h
          | nil =>
            cases hdef : defOpOf block.ops y with
            | none => simp only [hdef] at h; simp at h
            | some dop =>
              simp only [hdef] at h
              obtain ⟨did, dk⟩ := dop
              cases dk with
              | mulf r a b => simp at h
              | linalgYield args => simp at h
              | tensorYield a => simp at h
              | addf r a b =>
                by_cases ha : a.id = lastarg
                · simp [simpleReductionShape, hla, hlo, hdef, ha]
                · by_cases hb : b.id = lastarg
                  · simp [simpleReductionShape, hla, hlo, hdef, hb]
                  · simp [ha, hb] at h
              | addi r a b ii =>
                by_cases ha : a = lastarg
                · simp [simpleReductionShape, hla, hlo, hdef, ha]
                · by_cases hb : b = lastarg
                  · simp [simpleReductionShape, hla, hlo, hdef, hb]
                  · simp [ha, hb] at h

/-- A nonempty body block whose terminator matches none of the four shapes
makes the reduction-body encoder raise the Unsupported failure. -/
theorem encodeReduction_bad_shape (newst : State) (block : Block)
    (maps : List AffineMap) (outTy : MLIRTy) (wd : Expr)
    (hargs : block.argIds ≠ []) (hops : block.ops ≠ [])
    (hshape : simpleReductionShape block = false) :
    encodeReductionLoopBodyAndOutput newst block maps outTy wd =
      .error (.unsupported reductionErrMsg) := by
  simp only [encodeReductionLoopBodyAndOutput]
  cases hla : block.argIds.getLast? with
  | none => exact absurd (List.getLast?_eq_none.mp hla) hargs
  | some lastarg =>
    simp only [EncM_pure_eq, EncM_bind_ok]
    cases hlo : block.ops.getLast? with
    | none => exact absurd (List.getLast?_eq_none.mp hlo) hops
    | some lastop =>
      simp only [EncM_pure_eq, EncM_bind_ok]
      rw [simpleReductionShape, hla, hlo] at hshape
      obtain ⟨loid, lok⟩ := lastop
      cases lok with
      | addf r a b => rfl
      | mulf r a b => rfl
      | addi r a b ii => rfl
      | tensorYield a => rfl
      | linalgYield args =>
        cases args with
        | nil => rfl
        | cons y args2 =>
          cases args2 with
          | cons y2 args3 => rfl
          | nil =>
            cases hdef : defOpOf block.ops y with
            | none => simp only [hdef]; rfl
            | some dop =>
              simp only [hdef] at hshape ⊢
              obtain ⟨did, dk⟩ := dop
              cases dk with
              | mulf r a b => rfl
              | linalgYield args => rfl
              | tensorYield a => rfl
              | addf r a b =>
                simp only [Bool.or_eq_false_iff, beq_eq_false_iff_ne] at hshape
                simp [hshape.1, hshape.2]
              | addi r a b ii =>
                simp only [Bool.or_eq_false_iff, beq_eq_false_iff_ne] at hshape
                simp [hshape.1, hshape.2]

/-- C2: for a linalg.generic whose output indexing map is not a permutation,
encoding succeeds only if the body terminator matches one of the four shapes
yield(addf(acc, v)), yield(addf(v, acc)), yield(addi(acc, v)),
yield(addi(v, acc)) with acc the last block argument; and any nonempty body
of a different shape raises the Unsupported failure of the matcher. -/
theorem C2_reduction_matcher (st : State) (g : GenericOp) (emw : Bool)
    (st2 : State) (om : AffineMap)
    (hlast : g.indexingMaps.getLast? = some om)
    (hperm : om.isPermutation = false)
    (h : encodeOp_Generic st g emw = .ok st2) :
    simpleReductionShape g.block = true ∧
    ∀ (newst : State) (block : Block) (maps : List AffineMap)
      (outTy : MLIRTy) (wd : Expr),
      block.argIds ≠ [] → block.ops ≠ [] →
      simpleReductionShape block = false →
      encodeReductionLoopBodyAndOutput newst block maps outTy wd =
        .error (.unsupported reductionErrMsg) := by
  have hA : simpleReductionShape g.block = true := by
    simp only [encodeOp_Generic] at h
    by_cases hsem : ¬(g.hasTensorSemantics = true ∨ g.hasBufferSemantics = true)
    · rw [if_pos hsem] at h
      rw [EncM_bind_error] at h
      exact Except.noConfusion h
    · rw [if_neg hsem] at h
      by_cases hbw : g.hasBufferSemantics = true ∧ ¬ emw = true
      · rw [if_pos hbw] at h
        rw [EncM_bind_error] at h
        exact Except.noConfusion h
      · rw [if_neg hbw] at h
        cases harg : g.block.argTys.all MLIRTy.isSignlessIntOrFloat with
        | false =>
          rw [harg] at h
          rw [if_pos (by simp)] at h
          rw [EncM_bind_error] at h
          exact Except.noConfusion h
        | true =>
          rw [harg] at h
          rw [if_neg (by simp)] at h
          cases hit : g.iteratorTypes.any (fun it => it == IterTy.unknown) with
          | true =>
            rw [hit] at h
            rw [if_pos rfl] at h
            rw [EncM_bind_error] at h
            exact Except.noConfusion h
          | false =>
            rw [hit] at h
            rw [if_neg (by simp)] at h
            simp only [EncM_pure_eq, EncM_bind_ok] at h
            rw [EncM_bind_eq_ok] at h
            obtain ⟨bounds, hfb, h⟩ := h
            rw [EncM_bind_eq_ok] at h
            obtain ⟨stMid, hsm, h⟩ := h
            simp only [State.freshVars] at h
            rw [hlast] at h
            simp only [EncM_pure_eq, EncM_bind_ok] at h
            simp only [hperm, Bool.false_eq_true, if_false] at h
            simp only [EncM_bind_eq_ok] at h
            obtain ⟨⟨newstI, wdI⟩, hini, h⟩ := h
            by_cases hlen1 : 1 < g.outputs.length
            · rw [if_pos hlen1] at h
              simp at h
            · rw [if_neg hlen1] at h
              cases hout : g.outputs.head? with
              | none => rw [hout] at h; simp at h
              | some o =>
                rw [hout] at h
                simp only [EncM_bind_eq_ok] at h
                obtain ⟨⟨tres, newst2, wdB⟩, hred, h⟩ := h
                exact encodeReduction_ok_shape _ g.block g.indexingMaps o.ty
                  _ _ hred
  exact ⟨hA, fun newst block maps outTy wd ha ho hs =>
    encodeReduction_bad_shape newst block maps outTy wd ha ho hs⟩

def exTRed : Tensor := ⟨.f32, [IndexC 1], [indexVar 101], Expr.fconst 1 32⟩

def exRedSt : State :=
  ⟨[(1, .tensorV exT1), (2, .tensorV exTRed)], [], [], ⟨[]⟩, 200, false, false⟩

def exGenRed : GenericOp :=
  { opId := 70
    inputs := [⟨1, .tensorT [some 2] .f32⟩]
    outputs := [⟨2, .tensorT [some 1] .f32⟩]
    indexingMaps := [⟨1, 0, [.dim 0]⟩, ⟨1, 0, [.cst 0]⟩]
    iteratorTypes := [.reduction]
    block := ⟨[10, 11], [.f32, .f32],
      [⟨20, .addf 12 ⟨10, .f32⟩ ⟨11, .f32⟩⟩, ⟨21, .linalgYield [12]⟩]⟩
    resultIds := [3] }

def exRedSt2 : State :=
  (encodeOp_Generic exRedSt exGenRed false).toOption.getD exRedSt

/-- Witness for C2 at a concrete reduction generic op. -/
theorem C2_reduction_witness :
    simpleReductionShape exGenRed.block = true ∧
    ∀ (newst : State) (block : Block) (maps : List AffineMap)
      (outTy : MLIRTy) (wd : Expr),
      block.argIds ≠ [] → block.ops ≠ [] →
      simpleReductionShape block = false →
      encodeReductionLoopBodyAndOutput newst block maps outTy wd =
        .error (.unsupported reductionErrMsg) :=
  C2_reduction_matcher exRedSt exGenRed false exRedSt2 ⟨1, 0, [.cst 0]⟩
    (by rfl) (by decide) (by rfl)

theorem lookup_addReg_ne (s : State) (k : Nat) (vv : ValueTy) (id : Nat)
    (h : k ≠ id) : (s.addReg k vv).regs.lookup id = s.regs.lookup id := by
  have hbeq : (id == k) = false := beq_eq_false_iff_ne.mpr (Ne.symm h)
  simp [State.addReg, List.lookup, hbeq]

theorem identityMap_isIdentity (n : Nat) :
    (⟨n, 0, (List.range n).map AffineExpr.dim⟩ : AffineMap).isIdentity =
      true := by
  simp [AffineMap.isIdentity]

theorem doMap_identity (input : List Expr) (n : Nat) :
    doMap input ⟨n, 0, (List.range n).map AffineExpr.dim⟩ = input := by
  simp [doMap, identityMap_isIdentity n]

/-- Folding wellDefined over a list appends the mapped conjuncts. -/
theorem wellDefined_foldl (oi : Option Nat) (f : Nat → Expr) :
    ∀ (l : List Nat) (s : State),
    l.foldl (fun st i => State.wellDefined st oi (f i)) s =
      { s with wdp := s.wdp ++ l.map (fun i => (oi, f i)) }
  | [], s => by simp
  | i :: rest, s => by
    simp only [List.foldl_cons, List.map_cons]
    rw [wellDefined_foldl oi f rest]
    simp [State.wellDefined, List.append_assoc]

/-- The pad block-argument binding preserves everything but the bindings of
the arguments themselves. -/
theorem padBindArgs_fold (ivs : List Expr) :
    ∀ (l : List (Nat × Nat)) (s s2 : State),
    l.foldlM (padBindArgStep ivs) s = .ok s2 →
    s2.wdp = s.wdp ∧ s2.scopes = s.scopes ∧ s2.fresh = s.fresh ∧
      s2.mem = s.mem ∧
      ∀ id, (∀ p ∈ l, p.2 ≠ id) → s2.regs.lookup id = s.regs.lookup id
  | [], s, s2, h => by
    simp only [List.foldlM, EncM_pure_eq, Except.ok.injEq] at h
    subst h
    exact ⟨rfl, rfl, rfl, rfl, fun _ _ => rfl⟩
  | p :: rest, s, s2, h => by
    simp only [List.foldlM] at h
    cases hg : ivs.get? p.1 with
    | none =>
      simp only [padBindArgStep, hg, EncM_bind_error] at h
      simp at h
    | some iv =>
      simp only [padBindArgStep, hg, EncM_pure_eq, EncM_bind_ok] at h
      have ih := padBindArgs_fold ivs rest (s.addReg p.2 (.indexV iv)) s2 h
      refine ⟨ih.1, ih.2.1, ih.2.2.1, ih.2.2.2.1, ?_⟩
      intro id hid
      rw [ih.2.2.2.2 id (fun q hq => hid q (List.mem_cons_of_mem _ hq))]
      exact lookup_addReg_ne s p.2 _ id (hid p (List.mem_cons_self _ _))

/-- Encoding a scalar body op preserves the lookup of any register the op does
not define. -/
theorem encodeBodyOp_scalar_lookup (st : State) (bop : BodyOp) (emw : Bool)
    (st2 : State) (id : Nat) (hs : scalarBodyOp bop = true)
    (hnd : bodyOpDefines bop id = false)
    (h : encodeBodyOp st bop emw = .ok st2) :
    st2.regs.lookup id = st.regs.lookup id := by
  obtain ⟨oid, k⟩ := bop
  cases k with
  | addf res a b =>
    simp only [scalarBodyOp] at hs
    simp only [bodyOpDefines, beq_eq_false_iff_ne] at hnd
    simp only [encodeBodyOp, encodeBinaryOp, hs, if_true] at h
    cases hga : st.getFloat a.id with
    | error e => rw [hga] at h; simp at h
    | ok fa =>
      rw [hga] at h
      cases hgb : st.getFloat b.id with
      | error e => rw [hgb] at h; simp at h
      | ok fb =>
        rw [hgb] at h
        simp only [EncM_bind_ok, EncM_pure_eq, Except.ok.injEq] at h
        subst h
        exact lookup_addReg_ne st res _ id hnd
  | mulf res a b =>
    simp only [scalarBodyOp] at hs
    simp only [bodyOpDefines, beq_eq_false_iff_ne] at hnd
    simp only [encodeBodyOp, encodeBinaryOp, hs, if_true] at h
    cases hga : st.getFloat a.id with
    | error e => rw [hga] at h; simp at h
    | ok fa =>
      rw [hga] at h
      cases hgb : st.getFloat b.id with
      | error e => rw [hgb] at h; simp at h
      | ok fb =>
        rw [hgb] at h
        simp only [EncM_bind_ok, EncM_pure_eq, Except.ok.injEq] at h
        subst h
        exact lookup_addReg_ne st res _ id hnd
  | addi res a b isIdx =>
    simp only [bodyOpDefines, beq_eq_false_iff_ne] at hnd
    simp only [encodeBodyOp] at h
    cases hga : st.getExpr a with
    | error e => rw [hga] at h; simp at h
    | ok ea =>
      rw [hga] at h
      cases hgb : st.getExpr b with
      | error e => rw [hgb] at h; simp at h
      | ok eb =>
        rw [hgb] at h
        simp only [EncM_bind_ok, EncM_pure_eq, Except.ok.injEq] at h
        subst h
        exact lookup_addReg_ne st res _ id hnd
  | linalgYield args => simp [encodeBodyOp] at h
  | tensorYield a => simp [encodeBodyOp] at h

/-- The parallel loop-body encoder preserves the lookup of any register no
body op defines. -/
theorem encodeBlockAux_parallel_lookup (emw : Bool) (id : Nat) :
    ∀ (ops : List BodyOp) (idx : Nat) (st : State) (acc : Expr)
      (st2 : State) (acc2 : Expr),
    (∀ op ∈ ops, scalarBodyOp op = true) →
    (∀ op ∈ ops, bodyOpDefines op id = false) →
    encodeBlockAux emw parallelCheckHook bodyWdCallback st acc ops idx =
      .ok (st2, acc2) →
    st2.regs.lookup id = st.regs.lookup id
  | [], idx, st, acc, st2, acc2, _, _, h => by
    simp only [encodeBlockAux, EncM_pure_eq, Except.ok.injEq,
      Prod.mk.injEq] at h
    obtain ⟨h1, _⟩ := h
    subst h1
    rfl
  | op :: rest, idx, st, acc, st2, acc2, hall, hnd, h => by
    obtain ⟨oid, k⟩ := op
    have hsc : scalarBodyOp ⟨oid, k⟩ = true := hall _ (List.mem_cons_self _ _)
    have hnd1 : bodyOpDefines ⟨oid, k⟩ id = false :=
      hnd _ (List.mem_cons_self _ _)
    have hrest : ∀ o ∈ rest, scalarBodyOp o = true :=
      fun o ho => hall o (List.mem_cons_of_mem _ ho)
    have hndrest : ∀ o ∈ rest, bodyOpDefines o id = false :=
      fun o ho => hnd o (List.mem_cons_of_mem _ ho)
    cases k with
    | linalgYield args =>
      simp only [encodeBlockAux, parallelCheckHook] at h
      by_cases hlen : args.length = 0
      · rw [if_pos hlen] at h
        simp at h
      · rw [if_neg hlen] at h
        simp only [EncM_pure_eq, EncM_bind_ok, if_true] at h
        exact encodeBlockAux_parallel_lookup emw id rest (idx + 1) st acc
          st2 acc2 hrest hndrest h
    | tensorYield a =>
      simp only [encodeBlockAux, parallelCheckHook, EncM_pure_eq,
        EncM_bind_ok, if_true] at h
      exact encodeBlockAux_parallel_lookup emw id rest (idx + 1) st acc
        st2 acc2 hrest hndrest h
    | addf res a b =>
      simp only [encodeBlockAux, parallelCheckHook, EncM_pure_eq,
        EncM_bind_ok, Bool.false_eq_true, if_false] at h
      cases hbo : encodeBodyOp st ⟨oid, .addf res a b⟩ emw with
      | error e => rw [hbo] at h; simp at h
      | ok st3 =>
        rw [hbo] at h
        simp only [EncM_bind_ok] at h
        have h1 := encodeBodyOp_scalar_lookup st _ emw st3 id hsc hnd1 hbo
        have h2 := encodeBlockAux_parallel_lookup emw id rest (idx + 1) st3
          _ st2 acc2 hrest hndrest h
        exact h2.trans h1
    | mulf res a b =>
      simp only [encodeBlockAux, parallelCheckHook, EncM_pure_eq,
        EncM_bind_ok, Bool.false_eq_true, if_false] at h
      cases hbo : encodeBodyOp st ⟨oid, .mulf res a b⟩ emw with
      | error e => rw [hbo] at h; simp at h
      | ok st3 =>
        rw [hbo] at h
        simp only [EncM_bind_ok] at h
        have h1 := encodeBodyOp_scalar_lookup st _ emw st3 id hsc hnd1 hbo
        have h2 := encodeBlockAux_parallel_lookup emw id rest (idx + 1) st3
          _ st2 acc2 hrest hndrest h
        exact h2.trans h1
    | addi res a b isIdx =>
      simp only [encodeBlockAux, parallelCheckHook, EncM_pure_eq,
        EncM_bind_ok, Bool.false_eq_true, if_false] at h
      cases hbo : encodeBodyOp st ⟨oid, .addi res a b isIdx⟩ emw with
      | error e => rw [hbo] at h; simp at h
      | ok st3 =>
        rw [hbo] at h
        simp only [EncM_bind_ok] at h
        have h1 := encodeBodyOp_scalar_lookup st _ emw st3 id hsc hnd1 hbo
        have h2 := encodeBlockAux_parallel_lookup emw id rest (idx + 1) st3
          _ st2 acc2 hrest hndrest h
        exact h2.trans h1

/-- One axis of the pad source-region test: with low and the source dim
evaluating without wrap, low ≤ i ∧ i ult (low + dim) holds iff the iterator
value lies in [low, low + dim). -/
theorem padAxisEval (env : Env) (base : Nat) (low : List Expr) (src : Tensor)
    (lv dv : Nat → Nat) (k n : Nat) (hk : k < n)
    (hl : (low.getD k (IndexC 0)).eval env = some (.vbv IndexBITS (lv k)))
    (hd : (src.getDim k).eval env = some (.vbv IndexBITS (dv k)))
    (hnof : lv k + dv k < 2 ^ IndexBITS) :
    ((Expr.andE
        (Expr.ule (low.getD k (IndexC 0))
          ((boundIndexVars base n).getD k (IndexC 0)))
        (Expr.ult ((boundIndexVars base n).getD k (IndexC 0))
          (Expr.add (low.getD k (IndexC 0)) (src.getDim k)))).eval env =
      some (.vb true)) ↔
      (lv k ≤ env.iv (base + k) % 2 ^ IndexBITS ∧
       env.iv (base + k) % 2 ^ IndexBITS < lv k + dv k) := by
  rw [boundIndexVars_getD base n k (IndexC 0) hk, evalAnd_some_true]
  have h2 : (lv k + dv k) % 2 ^ IndexBITS = lv k + dv k := Nat.mod_eq_of_lt hnof
  rw [List.getD_eq_getElem?_getD] at hl
  simp [indexVar, Expr.eval, hl, hd, h2]

/-- The pad source-region test holds in an environment exactly when, on every
axis, the iterator value lies in [low, low + sourceDim). -/
theorem padIsSource_eval (env : Env) (base : Nat) (low : List Expr)
    (src : Tensor) (n : Nat) (lv dv : Nat → Nat)
    (hl : ∀ k < n, (low.getD k (IndexC 0)).eval env =
      some (.vbv IndexBITS (lv k)))
    (hd : ∀ k < n, (src.getDim k).eval env = some (.vbv IndexBITS (dv k)))
    (hnof : ∀ k < n, lv k + dv k < 2 ^ IndexBITS) :
    ((padIsSource src low (boundIndexVars base n)).eval env =
        some (.vb true)) ↔
      ∀ k < n, lv k ≤ env.iv (base + k) % 2 ^ IndexBITS ∧
        env.iv (base + k) % 2 ^ IndexBITS < lv k + dv k := by
  have hlen : (boundIndexVars base n).length = n := by simp [boundIndexVars]
  rw [padIsSource, hlen]
  rw [evalAndFoldl env (fun i =>
    Expr.andE
      (Expr.ule (low.getD i (IndexC 0))
        ((boundIndexVars base n).getD i (IndexC 0)))
      (Expr.ult ((boundIndexVars base n).getD i (IndexC 0))
        (Expr.add (low.getD i (IndexC 0)) (src.getDim i))))]
  simp only [List.mem_range]
  constructor
  · rintro ⟨_, h2⟩ k hk
    exact (padAxisEval env base low src lv dv k n hk (hl k hk) (hd k hk)
      (hnof k hk)).1 (h2 k hk)
  · intro hall
    refine ⟨by simp [Expr.eval], fun k hk => ?_⟩
    exact (padAxisEval env base low src lv dv k n hk (hl k hk) (hd k hk)
      (hnof k hk)).2 (hall k hk)

/-- C6: for linalg.pad_tensor (scalar padding body yielding a value bound
outside the body), the encoded result is the lambda tensor whose element at
each index tuple is pad-or-source: source[i − low] inside the source region,
the yielded padding value otherwise; the region test holds in an environment
exactly when low ≤ i < low + sourceDim on every axis; and the padding-body
well-definedness is conjoined into wellDefinedPred wrapped in a ∀ over
in-bounds result indices (after the static-shape dimension conjuncts). -/
theorem C6_pad_tensor (st : State) (op : PadTensorOp) (st2 : State)
    (retShape : List (Option Nat)) (ety0 : MLIRTy)
    (padLow padHigh : List Expr) (src : Tensor) (v : Nat) (padE : Expr)
    (hret : op.resTy = .tensorT retShape ety0)
    (hlow : getFromMixedOpsIdx st op.lowPad = .ok padLow)
    (hhigh : getFromMixedOpsIdx st op.highPad = .ok padHigh)
    (hsrc : st.getTensor op.sourceId = .ok src)
    (hscalar : ∀ bop ∈ op.block.ops, scalarBodyOp bop = true)
    (hfreshq : ∀ bop ∈ op.block.ops, ∀ q ∈ st.wdp, q.1 ≠ some bop.opId)
    (hyield : yieldedValuesOf op.block.ops = [v])
    (hargv : ∀ p ∈ op.block.argIds.enum, p.2 ≠ v)
    (hnodef : ∀ bop ∈ op.block.ops, bodyOpDefines bop v = false)
    (hvreg : st.regs.lookup v = some (.floatV padE .f32))
    (h : encodeOp_PadTensor st op = .ok st2) :
    ∃ (n : Nat) (tfront : Tensor),
      n = (vecAddElem (vecAdd (vecAdd src.dims padLow) padHigh)
        (attrIndex (-1))).length ∧
      tfront = Tensor.mkLambda .f32
        (addOne (vecAddElem (vecAdd (vecAdd src.dims padLow) padHigh)
          (attrIndex (-1))))
        (boundIndexVars st.fresh n)
        (paddingOrSource src padLow padE (boundIndexVars st.fresh n)) ∧
      st2.regs.lookup op.resId = some (.tensorV tfront) ∧
      (∀ idxs, (tfront.get idxs).1 =
        (paddingOrSource src padLow padE
          (boundIndexVars st.fresh n)).subst
          (mkSubst (varIds (boundIndexVars st.fresh n)) idxs)) ∧
      st2.wdp = st.wdp ++
        (if op.resTy.hasStaticShape then
          (List.range retShape.length).map (fun i =>
            (some op.opId, Expr.eqE (tfront.getDim i)
              (IndexC ((retShape.getD i none).getD 0))))
         else []) ++
        [(some op.opId, Expr.mkForall (boundIndexVars st.fresh n)
          (Expr.impliesE (tfront.isInBounds (boundIndexVars st.fresh n))
            (welldefConj op.block.ops)))] ∧
      ∀ (env : Env) (lv dv : Nat → Nat),
        (∀ k < n, (padLow.getD k (IndexC 0)).eval env =
          some (.vbv IndexBITS (lv k))) →
        (∀ k < n, (src.getDim k).eval env = some (.vbv IndexBITS (dv k))) →
        (∀ k < n, lv k + dv k < 2 ^ IndexBITS) →
        (((padIsSource src padLow (boundIndexVars st.fresh n)).eval env =
            some (.vb true)) ↔
          ∀ k < n, lv k ≤ env.iv (st.fresh + k) % 2 ^ IndexBITS ∧
            env.iv (st.fresh + k) % 2 ^ IndexBITS < lv k + dv k) := by
  simp only [encodeOp_PadTensor] at h
  rw [hret] at h
  simp only [EncM_pure_eq, EncM_bind_ok] at h
  rw [hlow] at h
  simp only [EncM_bind_ok] at h
  rw [hhigh] at h
  simp only [EncM_bind_ok] at h
  rw [hsrc] at h
  simp only [EncM_bind_ok] at h
  simp only [State.freshVars] at h
  rw [EncM_bind_eq_ok] at h
  obtain ⟨newstP, hbindargs, h⟩ := h
  simp only [EncM_bind_eq_ok] at h
  obtain ⟨⟨tvec, newstB2, wdOut⟩, hpar, h⟩ := h
  have hPfold := padBindArgs_fold (boundIndexVars st.fresh
    (vecAddElem (vecAdd (vecAdd src.dims padLow) padHigh)
      (attrIndex (-1))).length) op.block.argIds.enum _ newstP hbindargs
  have hPwdp : newstP.wdp = st.wdp := hPfold.1
  have hPscopes : newstP.scopes =
      ⟨boundIndexVars st.fresh (vecAddElem (vecAdd (vecAdd src.dims padLow)
        padHigh) (attrIndex (-1))).length,
       vecAddElem (vecAdd (vecAdd src.dims padLow) padHigh)
        (attrIndex (-1))⟩ :: st.scopes := hPfold.2.1
  have hPlook : newstP.regs.lookup v = some (.floatV padE .f32) :=
    (hPfold.2.2.2.2 v hargv).trans hvreg
  simp only [encodeParallelLoopBodyAndOutputs] at hpar
  rw [EncM_bind_eq_ok] at hpar
  obtain ⟨⟨stB, wdB1⟩, hblk, hpar⟩ := hpar
  have hfrB := encodeBlockAux_parallel_frame false op.block.ops 0 newstP
    (Expr.boolE true) stB wdB1 hscalar hblk
  have hlookB := encodeBlockAux_parallel_lookup false v op.block.ops 0 newstP
    (Expr.boolE true) stB wdB1 hscalar hnodef hblk
  have hscB : stB.scopes =
      ⟨boundIndexVars st.fresh (vecAddElem (vecAdd (vecAdd src.dims padLow)
        padHigh) (attrIndex (-1))).length,
       vecAddElem (vecAdd (vecAdd src.dims padLow) padHigh)
        (attrIndex (-1))⟩ :: st.scopes := hfrB.2.1.trans hPscopes
  have hvB : stB.regs.lookup v = some (.floatV padE .f32) :=
    hlookB.trans hPlook
  simp only [hscB, EncM_pure_eq, EncM_bind_ok] at hpar
  rw [hyield] at hpar
  simp only [List.mapM_cons, List.mapM_nil, State.getVal, State.getExpr, hvB,
    EncM_pure_eq, EncM_bind_ok, doMap_identity] at hpar
  simp only [valueMLIRTy, EncM_pure_eq, EncM_bind_ok, Except.ok.injEq,
    Prod.mk.injEq] at hpar
  obtain ⟨htv, hst2B, hwd3⟩ := hpar
  subst htv
  subst hst2B
  subst hwd3
  simp only [List.head?, EncM_pure_eq, EncM_bind_ok, Except.ok.injEq] at h
  subst h
  have hBwdp : stB.wdp = st.wdp := hfrB.1.trans hPwdp
  have hwdB1 : wdB1 = welldefConj op.block.ops := by
    rw [hfrB.2.2.2.2, welldefConj]
    refine foldl_wd_congr stB _ _ (fun bop hb => ?_)
    refine isOpWellDefined_notin stB _ (fun q hq => ?_)
    exact hfreshq bop (nonYieldOps_subset _ hb) q (hBwdp ▸ hq)
  rw [hret]
  refine ⟨_, _, rfl, rfl, ?_, fun idxs => rfl, ?_, ?_⟩
  · simp [State.wellDefined, State.addReg, List.lookup]
  · cases hstat : (MLIRTy.tensorT retShape ety0).hasStaticShape with
    | true =>
      simp only [hstat, if_true, eq_self_iff_true]
      rw [wellDefined_foldl (some op.opId)
        (fun i => Expr.eqE ((Tensor.mkLambda MLIRTy.f32
          (addOne (vecAddElem (vecAdd (vecAdd src.dims padLow) padHigh)
            (attrIndex (-1))))
          (boundIndexVars st.fresh (vecAddElem (vecAdd (vecAdd src.dims
            padLow) padHigh) (attrIndex (-1))).length)
          (paddingOrSource src padLow padE
            (boundIndexVars st.fresh (vecAddElem (vecAdd (vecAdd src.dims
              padLow) padHigh) (attrIndex (-1))).length))).getDim i)
          (IndexC ((retShape.getD i none).getD 0)))
        (List.range retShape.length)]
      simp [State.wellDefined, State.addReg, hwdB1, List.append_assoc]
    | false =>
      simp only [hstat, Bool.false_eq_true, if_false]
      simp [State.wellDefined, State.addReg, hwdB1]
  · intro env lv dv hl hd hnof
    exact padIsSource_eval env st.fresh padLow src _ lv dv hl hd hnof

def exPadSt : State :=
  ⟨[(1, .tensorV exT1), (5, .floatV (Expr.fconst 7 32) .f32)], [], [], ⟨[]⟩,
    200, false, false⟩

def exPadOp : PadTensorOp :=
  ⟨80, 4, .tensorT [some 4] .f32, 1, [.vattr 1], [.vattr 1],
    ⟨[10], [.index], [⟨30, .tensorYield 5⟩]⟩⟩

def exPadSt2 : State :=
  (encodeOp_PadTensor exPadSt exPadOp).toOption.getD exPadSt

/-- Witness for C6 at a concrete pad_tensor op. -/
theorem C6_pad_witness :
    ∃ (n : Nat) (tfront : Tensor),
      n = (vecAddElem (vecAdd (vecAdd exT1.dims [attrIndex 1]) [attrIndex 1])
        (attrIndex (-1))).length ∧
      tfront = Tensor.mkLambda .f32
        (addOne (vecAddElem (vecAdd (vecAdd exT1.dims [attrIndex 1])
          [attrIndex 1]) (attrIndex (-1))))
        (boundIndexVars exPadSt.fresh n)
        (paddingOrSource exT1 [attrIndex 1] (Expr.fconst 7 32)
          (boundIndexVars exPadSt.fresh n)) ∧
      exPadSt2.regs.lookup exPadOp.resId = some (.tensorV tfront) ∧
      (∀ idxs, (tfront.get idxs).1 =
        (paddingOrSource exT1 [attrIndex 1] (Expr.fconst 7 32)
          (boundIndexVars exPadSt.fresh n)).subst
          (mkSubst (varIds (boundIndexVars exPadSt.fresh n)) idxs)) ∧
      exPadSt2.wdp = exPadSt.wdp ++
        (if exPadOp.resTy.hasStaticShape then
          (List.range [some 4].length).map (fun i =>
            (some exPadOp.opId, Expr.eqE (tfront.getDim i)
              (IndexC (([some 4].getD i none).getD 0))))
         else []) ++
        [(some exPadOp.opId, Expr.mkForall (boundIndexVars exPadSt.fresh n)
          (Expr.impliesE (tfront.isInBounds (boundIndexVars exPadSt.fresh n))
            (welldefConj exPadOp.block.ops)))] ∧
      ∀ (env : Env) (lv dv : Nat → Nat),
        (∀ k < n, ([attrIndex 1].getD k (IndexC 0)).eval env =
          some (.vbv IndexBITS (lv k))) →
        (∀ k < n, (exT1.getDim k).eval env = some (.vbv IndexBITS (dv k))) →
        (∀ k < n, lv k + dv k < 2 ^ IndexBITS) →
        (((padIsSource exT1 [attrIndex 1]
            (boundIndexVars exPadSt.fresh n)).eval env = some (.vb true)) ↔
          ∀ k < n, lv k ≤ env.iv (exPadSt.fresh + k) % 2 ^ IndexBITS ∧
            env.iv (exPadSt.fresh + k) % 2 ^ IndexBITS < lv k + dv k) :=
  C6_pad_tensor exPadSt exPadOp exPadSt2 [some 4] .f32 [attrIndex 1]
    [attrIndex 1] exT1 5 (Expr.fconst 7 32) rfl rfl rfl rfl (by decide)
    (by decide) (by decide) (by decide) (by decide) rfl rfl

end MLIRTV
